import Mathlib

/-!
# Verification of the subagent orchestration core

Shallow embedding, in Lean 4, of the subagent registry, registry store
(v1 to v2 migration), announce flow, node subscription index, and the two
lane-queue implementations of the repository, together with proofs of the
specified properties.

JavaScript `Map` objects are modelled by association lists with unique keys
(`AMap`); JS `Set` objects by duplicate-free lists; JS numbers by `Int`
(timestamps by `Int` as well, since `Date.now()` is an integer); optional
fields by `Option`; JS truthiness checks are spelled out explicitly at each
use site.
-/

set_option maxHeartbeats 1000000

namespace LlmRonBot

/-- Association list with string keys, modelling a JS `Map`.
Keys are unique in every state reachable by the modelled operations. -/
abbrev AMap (α : Type) : Type := List (String × α)

namespace AMap

def empty {α : Type} : AMap α := []

/-- JS `map.get(k)`: first binding of `k`, if any. -/
def get? {α : Type} : AMap α → String → Option α
  | [], _ => none
  | (k', v) :: rest, k => if k' = k then some v else get? rest k

/-- JS `map.set(k, v)`: replace the existing binding or append a new one. -/
def set {α : Type} : AMap α → String → α → AMap α
  | [], k, v => [(k, v)]
  | (k', v') :: rest, k, v =>
    if k' = k then (k, v) :: rest else (k', v') :: set rest k v

/-- JS `map.delete(k)`: remove the binding of `k`, if any. -/
def erase {α : Type} : AMap α → String → AMap α
  | [], _ => []
  | (k', v') :: rest, k => if k' = k then rest else (k', v') :: erase rest k

def keys {α : Type} (m : AMap α) : List String := m.map Prod.fst

end AMap

/-- Model of JS `String.prototype.trim`: drop whitespace from both ends.
(Defined over the character list so that concrete witnesses reduce;
core `String.trim` does not reduce in the kernel.) -/
def jsTrim (s : String) : String :=
  String.mk (((s.data.dropWhile Char.isWhitespace).reverse.dropWhile
    Char.isWhitespace).reverse)

/-! ## Delivery context (src/utils/delivery-context.ts, unnamed part_001) -/

/-- A JS `threadId` value: either a string or a (finite) number. -/
inductive JThread where
  | tstr (s : String)
  | tnum (n : Int)
deriving DecidableEq, Repr

/-- The `DeliveryContext` TS type: all fields optional. -/
structure DeliveryContext where
  channel : Option String := none
  -- source field name: "to" (a reserved token in Lean)
  toId : Option String := none
  accountId : Option String := none
  threadId : Option JThread := none
deriving DecidableEq, Repr

/-- The channel-registry normalizers `normalizeMessageChannel` and
`normalizeAccountId` are imported from modules outside the provided sources;
the embedding is parametric in them. -/
structure Normalizers where
  normalizeMessageChannel : String → Option String
  normalizeAccountId : Option String → Option String

/-- JS falsiness of an optional string: absent or empty. -/
def strFalsy (o : Option String) : Bool := o.getD "" = ""

/-- JS `x || undefined`: an empty string collapses to absent. -/
def blankToNone (o : Option String) : Option String :=
  if o.getD "" = "" then none else o

/-- `normalizeDeliveryContext` from delivery-context.ts. -/
def normalizeDeliveryContext (nf : Normalizers) :
    Option DeliveryContext → Option DeliveryContext
  | none => none
  | some c =>
    let channel := match c.channel with
      | some ch => some ((nf.normalizeMessageChannel ch).getD (jsTrim ch))
      | none => none
    let toId := c.toId.map jsTrim
    let accountId := nf.normalizeAccountId c.accountId
    let threadId : Option JThread := match c.threadId with
      | some (.tnum n) => some (.tnum n)       -- Math.trunc on an integer
      | some (.tstr s) => some (.tstr (jsTrim s))
      | none => none
    let normalizedThreadId : Option JThread := match threadId with
      | some (.tstr s) => if s = "" then none else some (.tstr s)
      | x => x
    if strFalsy channel ∧ strFalsy toId ∧ strFalsy accountId ∧ normalizedThreadId = none then
      none
    else
      some { channel := blankToNone channel
             toId := blankToNone toId
             accountId := accountId
             threadId := normalizedThreadId }

/-! ## Subagent registry (src/agents/subagent-registry.ts) -/

inductive OutcomeStatus where
  | ok
  | error
  | timeout
  | unknown
deriving DecidableEq, Repr

/-- `SubagentRunOutcome` from subagent-announce.ts. -/
structure SubagentRunOutcome where
  status : OutcomeStatus
  error : Option String := none
deriving DecidableEq, Repr

inductive CleanupMode where
  | delete
  | keep
deriving DecidableEq, Repr

/-- `SubagentRunRecord` from subagent-registry.ts. Timestamps are JS numbers
produced by `Date.now()`, modelled as `Int`. -/
structure SubagentRunRecord where
  runId : String
  childSessionKey : String
  requesterSessionKey : String
  requesterOrigin : Option DeliveryContext := none
  requesterDisplayKey : String
  task : String
  cleanup : CleanupMode
  label : Option String := none
  createdAt : Int
  startedAt : Option Int := none
  endedAt : Option Int := none
  outcome : Option SubagentRunOutcome := none
  archiveAtMs : Option Int := none
  cleanupCompletedAt : Option Int := none
  cleanupHandled : Option Bool := none
deriving DecidableEq, Repr

/-- The in-memory `subagentRuns` map. -/
abbrev Registry : Type := AMap SubagentRunRecord

/-- JS truthiness of the optional `cleanupCompletedAt` timestamp:
absent and 0 are falsy. -/
def timestampTruthy (o : Option Int) : Bool :=
  match o with
  | some n => n ≠ 0
  | none => false

/-- `beginSubagentCleanup(runId)`: returns the boolean result and the updated
registry. The source also persists on success; persistence serialises exactly
the returned registry (see `saveSubagentRegistryToDisk`). -/
def beginSubagentCleanup (runId : String) (runs : Registry) : Bool × Registry :=
  match AMap.get? runs runId with
  | none => (false, runs)
  | some entry =>
    if timestampTruthy entry.cleanupCompletedAt then (false, runs)
    else if entry.cleanupHandled.getD false then (false, runs)
    else (true, AMap.set runs runId { entry with cleanupHandled := some true })

/-- `finalizeSubagentCleanup(runId, cleanup, didAnnounce)`: returns the updated
registry and whether `persistSubagentRuns` was invoked. `now` stands for the
`Date.now()` read in the last branch. -/
def finalizeSubagentCleanup (runId : String) (cleanup : CleanupMode)
    (didAnnounce : Bool) (now : Int) (runs : Registry) : Registry × Bool :=
  match AMap.get? runs runId with
  | none => (runs, false)
  | some entry =>
    if cleanup = .delete then (AMap.erase runs runId, true)
    else if !didAnnounce then
      (AMap.set runs runId { entry with cleanupHandled := some false }, true)
    else
      (AMap.set runs runId { entry with cleanupCompletedAt := some now }, true)




/-! ## Registry store (src/agents/subagent-registry.store.ts) -/

/-- An untyped JSON field value, as the loader sees it before its
`typeof` checks. -/
inductive JVal where
  | jnum (n : Int)
  | jstr (s : String)
  | jbool (b : Bool)
  | jnull
deriving DecidableEq, Repr

/-- JS truthiness of a `JVal`. -/
def jvalTruthy : JVal → Bool
  | .jnum n => n ≠ 0
  | .jstr s => s ≠ ""
  | .jbool b => b
  | .jnull => false

/-- The left operand of a JS nullish coalescing: `jnull` behaves like an
absent value. -/
def denullish : Option JVal → Option JVal
  | some .jnull => none
  | x => x

/-- `LegacySubagentRunRecord`: a persisted run record as read from JSON.
Fields the loader typechecks are kept raw (`Option JVal`); fields it passes
through via the `...rest` spread are kept at their record types. -/
structure LegacySubagentRunRecord where
  runId : Option JVal := none
  childSessionKey : String
  requesterSessionKey : String
  requesterOrigin : Option DeliveryContext := none
  requesterDisplayKey : String
  task : String
  cleanup : CleanupMode
  label : Option String := none
  createdAt : Int
  startedAt : Option Int := none
  endedAt : Option Int := none
  outcome : Option SubagentRunOutcome := none
  archiveAtMs : Option Int := none
  cleanupCompletedAt : Option JVal := none
  cleanupHandled : Option JVal := none
  announceCompletedAt : Option JVal := none
  announceHandled : Option JVal := none
  requesterChannel : Option JVal := none
  requesterAccountId : Option JVal := none
deriving DecidableEq, Repr

/-- The versioned on-disk envelope (`PersistedSubagentRegistry`). -/
structure PersistedSubagentRegistry where
  version : Int
  runs : List (String × LegacySubagentRunRecord)
deriving DecidableEq, Repr

/-- What `saveSubagentRegistryToDisk` writes: always a version-2 envelope. -/
structure PersistedSubagentRegistryV2 where
  version : Int
  runs : List (String × SubagentRunRecord)
deriving DecidableEq, Repr

/-- `saveSubagentRegistryToDisk`: serialises the map entries in iteration
order under `REGISTRY_VERSION = 2`. -/
def saveSubagentRegistryToDisk (runs : Registry) : PersistedSubagentRegistryV2 :=
  { version := 2, runs := runs }

/-- The loop body of `loadSubagentRegistryFromDisk` for one valid entry:
field migration for a (possibly legacy) record. `rid` is the validated
nonempty string held in `typed.runId`. -/
def migrateLegacyRun (nf : Normalizers) (isLegacy : Bool) (rid : String)
    (typed : LegacySubagentRunRecord) : SubagentRunRecord :=
  let legacyCompletedAt : Option Int :=
    if isLegacy then
      match typed.announceCompletedAt with
      | some (.jnum n) => some n
      | _ => none
    else none
  let cleanupCompletedAt : Option Int :=
    match typed.cleanupCompletedAt with
    | some (.jnum n) => some n
    | _ => legacyCompletedAt
  let cleanupHandled : Option Bool :=
    match typed.cleanupHandled with
    | some (.jbool b) => some b
    | _ =>
      if isLegacy then
        some (match denullish typed.announceHandled with
          | some v => jvalTruthy v
          | none => timestampTruthy cleanupCompletedAt)
      else none
  let requesterOrigin :=
    normalizeDeliveryContext nf (some (match typed.requesterOrigin with
      | some ro => ro
      | none =>
        { channel := match typed.requesterChannel with
            | some (.jstr s) => some s
            | _ => none
          accountId := match typed.requesterAccountId with
            | some (.jstr s) => some s
            | _ => none }))
  { runId := rid
    childSessionKey := typed.childSessionKey
    requesterSessionKey := typed.requesterSessionKey
    requesterOrigin := requesterOrigin
    requesterDisplayKey := typed.requesterDisplayKey
    task := typed.task
    cleanup := typed.cleanup
    label := typed.label
    createdAt := typed.createdAt
    startedAt := typed.startedAt
    endedAt := typed.endedAt
    outcome := typed.outcome
    archiveAtMs := typed.archiveAtMs
    cleanupCompletedAt := cleanupCompletedAt
    cleanupHandled := cleanupHandled }

/-- One `foldl` step of the load loop: skips entries without a nonempty
string `runId`, otherwise stores the migrated record under the envelope key
and notes whether a legacy entry was migrated. -/
def loadStep (nf : Normalizers) (isLegacy : Bool) (acc : Registry × Bool)
    (kv : String × LegacySubagentRunRecord) : Registry × Bool :=
  match kv.2.runId with
  | some (.jstr rid) =>
    if rid = "" then acc
    else (AMap.set acc.1 kv.1 (migrateLegacyRun nf isLegacy rid kv.2),
          acc.2 || isLegacy)
  | _ => acc

/-- `loadSubagentRegistryFromDisk`: returns the loaded registry and, when a
legacy entry was migrated, the version-2 envelope that is re-saved to disk. -/
def loadSubagentRegistryFromDisk (nf : Normalizers)
    (record : PersistedSubagentRegistry) :
    Registry × Option PersistedSubagentRegistryV2 :=
  if record.version ≠ 1 ∧ record.version ≠ 2 then (AMap.empty, none)
  else
    let isLegacy := record.version = 1
    let folded := record.runs.foldl (loadStep nf isLegacy) (AMap.empty, false)
    (folded.1, if folded.2 then some (saveSubagentRegistryToDisk folded.1) else none)

/-! ## Announce flow (src/agents/subagent-announce.ts) -/

/-- The environment `maybeQueueSubagentAnnounce` reads through its external
collaborators: the requester session entry, the resolved queue settings, the
embedded-run probe and the steer attempt. -/
structure RequesterSessionEnv where
  /-- `entry?.sessionId` of the requester session store entry. -/
  sessionId : Option String
  /-- `resolveQueueSettings(...).mode` (a string in the source). -/
  queueMode : String
  /-- `isEmbeddedPiRunActive(sessionId)`. -/
  isActive : Bool
  /-- result of `queueEmbeddedPiMessage(sessionId, triggerMessage)`. -/
  steerAccepts : Bool
deriving DecidableEq, Repr

/-- The three results of `maybeQueueSubagentAnnounce`; `noQueue` stands for
the string result "none". -/
inductive AnnounceQueueDecision where
  | steered
  | queued
  | noQueue
deriving DecidableEq, Repr

/-- `maybeQueueSubagentAnnounce`, as a function of its environment. -/
def maybeQueueSubagentAnnounce (env : RequesterSessionEnv) :
    AnnounceQueueDecision :=
  if strFalsy env.sessionId then .noQueue
  else
    let shouldSteer := env.queueMode = "steer" ∨ env.queueMode = "steer-backlog"
    if shouldSteer ∧ env.steerAccepts then .steered
    else
      let shouldFollowup := env.queueMode = "followup" ∨ env.queueMode = "collect" ∨
        env.queueMode = "steer-backlog" ∨ env.queueMode = "interrupt"
      if env.isActive ∧ (shouldFollowup ∨ env.queueMode = "steer") then .queued
      else .noQueue

/-- The status label of step "Build status label" in `runSubagentAnnounceFlow`;
`outcome.error || "unknown error"` treats an empty error string as absent. -/
def statusLabel (outcome : SubagentRunOutcome) : String :=
  match outcome.status with
  | .ok => "completed successfully"
  | .timeout => "timed out"
  | .error => "failed: " ++ (match outcome.error with
      | some e => if e = "" then "unknown error" else e
      | none => "unknown error")
  | .unknown => "finished with unknown status"

/-- JS `array.join("\n")`. -/
def joinLines : List String → String
  | [] => ""
  | [a] => a
  | a :: rest => a ++ "\n" ++ joinLines rest

/-- `params.label || params.task || "task"`. -/
def taskLabelOf (label : Option String) (task : String) : String :=
  match label with
  | some l => if l = "" then (if task = "" then "task" else task) else l
  | none => if task = "" then "task" else task

/-- The `triggerMessage` template of `runSubagentAnnounceFlow`. -/
def triggerMessage (announceType taskLabel : String) (reply : Option String)
    (outcome : SubagentRunOutcome) (statsLine : String) : String :=
  joinLines
    [ "A " ++ announceType ++ " \"" ++ taskLabel ++ "\" just " ++
        statusLabel outcome ++ "."
    , ""
    , "Findings:"
    , (if (reply.getD "") = "" then "(no output)" else reply.getD "")
    , ""
    , statsLine
    , ""
    , "请为用户自然地总结以下内容。保持简洁（1-2句话）。自然地融入对话流程中。"
    , "不需要提及技术细节，例如令牌数量、统计数据或这是一个${announceType}。"
    , "如果不需要进行通知（例如，没有用户可见结果的内部任务），你可以用\x27NO_REPLY\x27来回应。"
    ]

/-- How the flow publishes the trigger message: via steering, via the
announce queue, or via the direct `agent` gateway call. The source has no
fourth, publish-nothing branch after the message is built. -/
inductive PublishAction where
  | steered (message : String)
  | queuedMsg (message : String)
  | direct (message : String)
deriving DecidableEq, Repr

/-- The embedded-run probes `runSubagentAnnounceFlow` makes: each is a
separate read of `isEmbeddedPiRunActive(childSessionId)` at a different
suspension point, plus the result of `waitForEmbeddedPiRunEnd`. -/
structure ChildRunProbes where
  /-- the child session id resolved to a nonempty string. -/
  childSessionIdKnown : Bool
  /-- `isEmbeddedPiRunActive` before the settle wait. -/
  activeAtSettle : Bool
  /-- result of `waitForEmbeddedPiRunEnd`. -/
  settleEnded : Bool
  /-- `isEmbeddedPiRunActive` re-probed after a failed settle wait. -/
  activeAfterSettle : Bool
  /-- `isEmbeddedPiRunActive` re-probed at the empty-reply check. -/
  activeAtReplyCheck : Bool
deriving DecidableEq, Repr

/-- The decision core of `runSubagentAnnounceFlow` from the settle check to
the delivery: `none` is the deferred case (child run still active), which
returns `didAnnounce = false` and publishes nothing; otherwise the built
trigger message is always published through one of the three channels — the
source has no branch that inspects the reply content and suppresses the
announcement. -/
def runSubagentAnnounceFlowCore (probes : ChildRunProbes)
    (env : RequesterSessionEnv) (announceType : Option String)
    (label : Option String) (task : String) (reply : Option String)
    (outcome : SubagentRunOutcome) (statsLine : String) : Option PublishAction :=
  if probes.childSessionIdKnown ∧ probes.activeAtSettle ∧ ¬probes.settleEnded ∧
      probes.activeAfterSettle then none
  else if jsTrim (reply.getD "") = "" ∧ probes.childSessionIdKnown ∧
      probes.activeAtReplyCheck then none
  else
    let msg := triggerMessage (announceType.getD "subagent task")
      (taskLabelOf label task) reply outcome statsLine
    match maybeQueueSubagentAnnounce env with
    | .steered => some (.steered msg)
    | .queued => some (.queuedMsg msg)
    | .noQueue => some (.direct msg)

/-! ## Node subscription index (src/gateway/server-node-subscriptions.ts) -/

/-- The two maps closed over by `createNodeSubscriptionManager`. JS `Set`
values are modelled as duplicate-free lists in insertion order. -/
structure NodeSubscriptionState where
  nodeSubscriptions : AMap (List String)
  sessionSubscribers : AMap (List String)
deriving DecidableEq, Repr

def NodeSubscriptionState.empty : NodeSubscriptionState :=
  { nodeSubscriptions := AMap.empty, sessionSubscribers := AMap.empty }

/-- JS `set.add(x)` on a set represented as a duplicate-free list. -/
def addToSet (l : List String) (x : String) : List String :=
  if x ∈ l then l else l ++ [x]

/-- The set under a key, empty when the key is absent. -/
def getSet (m : AMap (List String)) (k : String) : List String :=
  (AMap.get? m k).getD []

/-- The shared pattern `m.get(k)?.delete(x); if (m.get(k)?.size === 0)
m.delete(k)`: remove `x` from the set under `k` and drop the key when the
set becomes empty. -/
def pruneEntry (m : AMap (List String)) (k x : String) : AMap (List String) :=
  match AMap.get? m k with
  | none => m
  | some l =>
    let l' := l.erase x
    if l' = [] then AMap.erase m k else AMap.set m k l'

/-- `subscribe(nodeId, sessionKey)`. -/
def subscribe (st : NodeSubscriptionState) (nodeId sessionKey : String) :
    NodeSubscriptionState :=
  let n := jsTrim nodeId
  let s := jsTrim sessionKey
  if n = "" ∨ s = "" then st
  else
    if s ∈ getSet st.nodeSubscriptions n then st
    else
      { nodeSubscriptions :=
          AMap.set st.nodeSubscriptions n (getSet st.nodeSubscriptions n ++ [s])
        sessionSubscribers :=
          AMap.set st.sessionSubscribers s
            (addToSet (getSet st.sessionSubscribers s) n) }

/-- `unsubscribe(nodeId, sessionKey)`. -/
def unsubscribe (st : NodeSubscriptionState) (nodeId sessionKey : String) :
    NodeSubscriptionState :=
  let n := jsTrim nodeId
  let s := jsTrim sessionKey
  if n = "" ∨ s = "" then st
  else
    { nodeSubscriptions := pruneEntry st.nodeSubscriptions n s
      sessionSubscribers := pruneEntry st.sessionSubscribers s n }

/-- `unsubscribeAll(nodeId)`. -/
def unsubscribeAll (st : NodeSubscriptionState) (nodeId : String) :
    NodeSubscriptionState :=
  let n := jsTrim nodeId
  match AMap.get? st.nodeSubscriptions n with
  | none => st
  | some nodeSet =>
    { nodeSubscriptions := AMap.erase st.nodeSubscriptions n
      sessionSubscribers :=
        nodeSet.foldl (fun m s => pruneEntry m s n) st.sessionSubscribers }

/-- Any sequence of manager mutations covered by the claim. -/
inductive NodeSubOp where
  | sub (nodeId sessionKey : String)
  | unsub (nodeId sessionKey : String)
  | unsubAll (nodeId : String)
deriving DecidableEq, Repr

def applyNodeSubOp (st : NodeSubscriptionState) : NodeSubOp → NodeSubscriptionState
  | .sub n s => subscribe st n s
  | .unsub n s => unsubscribe st n s
  | .unsubAll n => unsubscribeAll st n

def runNodeSubOps (ops : List NodeSubOp) : NodeSubscriptionState :=
  ops.foldl applyNodeSubOp NodeSubscriptionState.empty

/-! ## Lane queues

Two implementations exist in the repository: `CmdQueueA` embeds
src/process/command-queue.ts (a plain `active` counter) and `CmdQueueB`
embeds the unnamed part_002 variant (an `activeTaskIds` set with a
generation counter, plus `clearCommandLane` rejection and `resetAllLanes`).

Queue entries are identified by the ghost id of their promise (assigned at
enqueue time); a task's eventual completion is an external event `done`,
carrying the settled result. Each machine records the observable traces:
the order in which tasks are started and the order and results in which
their promises are settled. The `running` fields are ghost state listing
the pending completion callbacks of the JS runtime (each callback closes
over its entry and, in `CmdQueueB`, its task id and generation snapshot).
-/

/-- Modelled from the spec: `CommandLane.Main` lives in src/process/lanes.ts,
which is not among the provided sources; the spec fixes the default lane
name as "main". -/
def commandLaneMain : String := "main"

/-- `lane.trim() || CommandLane.Main`. -/
def cleanLane (lane : String) : String :=
  if jsTrim lane = "" then commandLaneMain else jsTrim lane

/-- The settled result of a task: `resolve(v)` or `reject(e)`. -/
inductive TaskRes where
  | ok (v : Nat)
  | err (e : Nat)
deriving DecidableEq, Repr

/-- A JS `Error` object, by its `name` and `message`. -/
structure JsError where
  name : String
  message : String
deriving DecidableEq, Repr

/-- `new CommandLaneClearedError(lane)` from the part_002 variant. -/
def CommandLaneClearedError (lane : Option String) : JsError :=
  { name := "CommandLaneClearedError"
    message := match lane with
      | some l =>
        if l = "" then "Command lane cleared"
        else "Command lane \"" ++ l ++ "\" cleared"
      | none => "Command lane cleared" }

/-- External events driving a lane-queue machine. -/
inductive LaneEvent where
  | enq (lane : String)
  | setc (lane : String) (n : Int)
  | done (lane : String) (entryId : Nat) (res : TaskRes)
deriving DecidableEq, Repr

namespace CmdQueueA

/-- `LaneState` of src/process/command-queue.ts; `running` is the ghost list
of started-but-unsettled entries. -/
structure LaneA where
  queue : List Nat
  active : Nat
  maxConcurrent : Nat
  draining : Bool
  running : List Nat
deriving DecidableEq, Repr

/-- The `created` lane of `getLaneState`. -/
def LaneA.init : LaneA :=
  { queue := [], active := 0, maxConcurrent := 1, draining := false, running := [] }

structure StateA where
  lanes : AMap LaneA
  nextEntryId : Nat
  started : List (String × Nat)
  settled : List (String × Nat × TaskRes)
deriving DecidableEq, Repr

def StateA.init : StateA :=
  { lanes := AMap.empty, nextEntryId := 0, started := [], settled := [] }

/-- The `pump` loop: take entries from the head while under capacity.
Returns the remaining queue, the new active count, and the started ids. -/
def pumpA : List Nat → Nat → Nat → List Nat × Nat × List Nat
  | [], a, _ => ([], a, [])
  | e :: rest, a, maxC =>
    if a < maxC then
      let r := pumpA rest (a + 1) maxC
      (r.1, r.2.1, e :: r.2.2)
    else (e :: rest, a, [])

/-- Unconditional pump of one lane (as called from a completion callback,
which bypasses the `draining` guard). The lane is created if missing, as by
`getLaneState`. -/
def pumpLaneA (st : StateA) (lane : String) : StateA :=
  let l := (AMap.get? st.lanes lane).getD LaneA.init
  let r := pumpA l.queue l.active l.maxConcurrent
  { st with
    lanes := AMap.set st.lanes lane
      { l with queue := r.1, active := r.2.1, running := l.running ++ r.2.2 }
    started := st.started ++ r.2.2.map (fun e => (lane, e)) }

/-- `drainLane`: reentrancy-guarded by `draining`; the flag is false again
when the synchronous pump returns. -/
def drainLaneA (st : StateA) (lane : String) : StateA :=
  let l := (AMap.get? st.lanes lane).getD LaneA.init
  if l.draining then { st with lanes := AMap.set st.lanes lane l }
  else pumpLaneA st lane

/-- One external event applied to the machine. On `done` the source order
is: decrement `active`, pump, then settle the promise. -/
def stepA (st : StateA) : LaneEvent → StateA
  | .enq lane =>
    let cleaned := cleanLane lane
    let l := (AMap.get? st.lanes cleaned).getD LaneA.init
    let st' := { st with
      lanes := AMap.set st.lanes cleaned { l with queue := l.queue ++ [st.nextEntryId] }
      nextEntryId := st.nextEntryId + 1 }
    drainLaneA st' cleaned
  | .setc lane n =>
    let cleaned := cleanLane lane
    let l := (AMap.get? st.lanes cleaned).getD LaneA.init
    let st' := { st with
      lanes := AMap.set st.lanes cleaned { l with maxConcurrent := (max 1 n).toNat } }
    drainLaneA st' cleaned
  | .done lane e res =>
    match AMap.get? st.lanes lane with
    | none => st
    | some l =>
      if e ∈ l.running then
        let l' := { l with active := l.active - 1, running := l.running.erase e }
        let st' := pumpLaneA { st with lanes := AMap.set st.lanes lane l' } lane
        { st' with settled := st'.settled ++ [(lane, e, res)] }
      else st

def runA (events : List LaneEvent) : StateA :=
  events.foldl stepA StateA.init

/-- `getQueueSize(lane)`. -/
def getQueueSizeA (st : StateA) (lane : String) : Nat :=
  match AMap.get? st.lanes (cleanLane lane) with
  | none => 0
  | some l => l.queue.length + l.active

/-- `getTotalQueueSize()`. -/
def getTotalQueueSizeA (st : StateA) : Nat :=
  st.lanes.foldl (fun acc kl => acc + kl.2.queue.length + kl.2.active) 0

end CmdQueueA

namespace CmdQueueB

/-- A pending completion callback of the part_002 variant: it closes over
its entry, the task id assigned at start, and the generation snapshot. -/
structure RunningTask where
  entryId : Nat
  taskId : Nat
  generation : Nat
deriving DecidableEq, Repr

/-- `LaneState` of the part_002 variant. -/
structure LaneB where
  queue : List Nat
  activeTaskIds : List Nat
  maxConcurrent : Nat
  draining : Bool
  generation : Nat
  running : List RunningTask
deriving DecidableEq, Repr

def LaneB.init : LaneB :=
  { queue := [], activeTaskIds := [], maxConcurrent := 1, draining := false,
    generation := 0, running := [] }

structure StateB where
  lanes : AMap LaneB
  nextEntryId : Nat
  nextTaskId : Nat
  started : List (String × Nat)
  settled : List (String × Nat × TaskRes)
deriving DecidableEq, Repr

def StateB.init : StateB :=
  { lanes := AMap.empty, nextEntryId := 0, nextTaskId := 1, started := [], settled := [] }

/-- `completeTask(state, taskId, taskGeneration)`: ignores the completion
when the generation does not match; otherwise removes the task id. -/
def completeTask (l : LaneB) (taskId taskGeneration : Nat) : LaneB × Bool :=
  if taskGeneration ≠ l.generation then (l, false)
  else ({ l with activeTaskIds := l.activeTaskIds.erase taskId }, true)

/-- Result of the `pump` loop of the part_002 variant. -/
structure PumpOut where
  queue : List Nat
  activeTaskIds : List Nat
  nextTaskId : Nat
  newRunning : List RunningTask
  startedIds : List Nat
deriving DecidableEq, Repr

/-- The `pump` loop: take entries from the head while
`activeTaskIds.size < maxConcurrent`, assigning fresh task ids and
snapshotting the generation. -/
def pumpB : List Nat → List Nat → Nat → Nat → Nat → PumpOut
  | [], ids, _, tid, _ =>
    { queue := [], activeTaskIds := ids, nextTaskId := tid, newRunning := [], startedIds := [] }
  | e :: rest, ids, maxC, tid, gen =>
    if ids.length < maxC then
      let r := pumpB rest (ids ++ [tid]) maxC (tid + 1) gen
      { r with newRunning := ⟨e, tid, gen⟩ :: r.newRunning, startedIds := e :: r.startedIds }
    else
      { queue := e :: rest, activeTaskIds := ids, nextTaskId := tid,
        newRunning := [], startedIds := [] }

/-- Unconditional pump of one lane (as called from a completion callback). -/
def pumpLaneB (st : StateB) (lane : String) : StateB :=
  let l := (AMap.get? st.lanes lane).getD LaneB.init
  let r := pumpB l.queue l.activeTaskIds l.maxConcurrent st.nextTaskId l.generation
  { st with
    lanes := AMap.set st.lanes lane
      { l with queue := r.queue, activeTaskIds := r.activeTaskIds,
               running := l.running ++ r.newRunning }
    nextTaskId := r.nextTaskId
    started := st.started ++ r.startedIds.map (fun e => (lane, e)) }

/-- `drainLane` of the part_002 variant. -/
def drainLaneB (st : StateB) (lane : String) : StateB :=
  let l := (AMap.get? st.lanes lane).getD LaneB.init
  if l.draining then { st with lanes := AMap.set st.lanes lane l }
  else pumpLaneB st lane

/-- The first running task with the given entry id, removed. -/
def removeFirstEntry : List RunningTask → Nat → List RunningTask
  | [], _ => []
  | r :: rest, e => if r.entryId = e then rest else r :: removeFirstEntry rest e

/-- One external event. On `done` the source order is: `completeTask`,
pump only when the completion matched the current generation, then settle. -/
def stepB (st : StateB) : LaneEvent → StateB
  | .enq lane =>
    let cleaned := cleanLane lane
    let l := (AMap.get? st.lanes cleaned).getD LaneB.init
    let st' := { st with
      lanes := AMap.set st.lanes cleaned { l with queue := l.queue ++ [st.nextEntryId] }
      nextEntryId := st.nextEntryId + 1 }
    drainLaneB st' cleaned
  | .setc lane n =>
    let cleaned := cleanLane lane
    let l := (AMap.get? st.lanes cleaned).getD LaneB.init
    let st' := { st with
      lanes := AMap.set st.lanes cleaned { l with maxConcurrent := (max 1 n).toNat } }
    drainLaneB st' cleaned
  | .done lane e res =>
    match AMap.get? st.lanes lane with
    | none => st
    | some l =>
      match l.running.find? (fun r => r.entryId = e) with
      | none => st
      | some r =>
        let lr := { l with running := removeFirstEntry l.running e }
        let c := completeTask lr r.taskId r.generation
        let st' := { st with lanes := AMap.set st.lanes lane c.1 }
        let st'' := if c.2 then pumpLaneB st' lane else st'
        { st'' with settled := st''.settled ++ [(lane, e, res)] }

def runB (events : List LaneEvent) : StateB :=
  events.foldl stepB StateB.init

/-- `getQueueSize(lane)`. -/
def getQueueSizeB (st : StateB) (lane : String) : Nat :=
  match AMap.get? st.lanes (cleanLane lane) with
  | none => 0
  | some l => l.queue.length + l.activeTaskIds.length

/-- `getTotalQueueSize()`. -/
def getTotalQueueSizeB (st : StateB) : Nat :=
  st.lanes.foldl (fun acc kl => acc + kl.2.queue.length + kl.2.activeTaskIds.length) 0

/-- `clearCommandLane(lane)` of the part_002 variant: splice the queued
entries, reject each with a `CommandLaneClearedError`, return the count.
Result: (removed count, rejections in queue order, new state). -/
def clearCommandLane (st : StateB) (lane : String) :
    Nat × List (Nat × JsError) × StateB :=
  let cleaned := cleanLane lane
  match AMap.get? st.lanes cleaned with
  | none => (0, [], st)
  | some l =>
    (l.queue.length,
     l.queue.map (fun e => (e, CommandLaneClearedError (some cleaned))),
     { st with lanes := AMap.set st.lanes cleaned { l with queue := [] } })

/-- The per-lane reset pass of `resetAllLanes`. -/
def resetLane (l : LaneB) : LaneB :=
  { l with generation := l.generation + 1, activeTaskIds := [], draining := false }

/-- `resetAllLanes()`: bump every generation, clear every active set and
`draining`, then drain each lane that still has queued entries. -/
def resetAllLanes (st : StateB) : StateB :=
  let lanesToDrain := (st.lanes.filter (fun kl => !kl.2.queue.isEmpty)).map Prod.fst
  let st' := { st with lanes := st.lanes.map (fun kl => (kl.1, resetLane kl.2)) }
  lanesToDrain.foldl drainLaneB st'

end CmdQueueB

/-! ## Concrete sample data (used by the witness theorems) -/

def sampleRun : SubagentRunRecord :=
  { runId := "r1", childSessionKey := "agent:main:subagent:u1",
    requesterSessionKey := "main", requesterDisplayKey := "main",
    task := "t", cleanup := .keep, createdAt := 5,
    cleanupHandled := some false }

def sampleRegistry : Registry := [("r1", sampleRun)]

def sampleLaneB : CmdQueueB.LaneB :=
  { queue := [7, 8], activeTaskIds := [3], maxConcurrent := 1,
    draining := false, generation := 2, running := [⟨5, 3, 2⟩] }

def sampleStateB : CmdQueueB.StateB :=
  { lanes := [("main", sampleLaneB)], nextEntryId := 9, nextTaskId := 4,
    started := [], settled := [] }

/-- Whether a raw JSON field holds a number (the loader's
`typeof x === "number"` test). -/
def isNumJVal : Option JVal → Bool
  | some (.jnum _) => true
  | _ => false

/-- Whether a raw JSON field holds a boolean (the loader's
`typeof x === "boolean"` test). -/
def isBoolJVal : Option JVal → Bool
  | some (.jbool _) => true
  | _ => false

def sampleLegacyRun : LegacySubagentRunRecord :=
  { runId := some (.jstr "r1"), childSessionKey := "agent:main:subagent:u1",
    requesterSessionKey := "main", requesterDisplayKey := "main", task := "t",
    cleanup := .keep, createdAt := 5,
    announceCompletedAt := some (.jnum 42),
    announceHandled := some (.jbool true),
    requesterChannel := some (.jstr "telegram"),
    requesterAccountId := some (.jstr "acct") }

def sampleV1Envelope : PersistedSubagentRegistry :=
  { version := 1, runs := [("r1", sampleLegacyRun)] }

def sampleNormalizers : Normalizers :=
  { normalizeMessageChannel := fun _ => none, normalizeAccountId := fun a => a }

/-- The symmetry half of the claimed invariant: membership in the two maps
is inverse. -/
def nodeSubsSymmetric (st : NodeSubscriptionState) : Prop :=
  ∀ n s, s ∈ getSet st.nodeSubscriptions n ↔ n ∈ getSet st.sessionSubscribers s

/-- No key of the map holds an empty set. -/
def noEmptySets (m : AMap (List String)) : Prop :=
  ∀ k l, AMap.get? m k = some l → l ≠ []

/-- Every stored set is duplicate-free (a JS `Set`). -/
def nodupVals (m : AMap (List String)) : Prop :=
  ∀ k l, AMap.get? m k = some l → l.Nodup

/-- Full well-formedness of the subscription state: the claimed invariant
plus the representation invariants of the modelled `Map`s and `Set`s. -/
def NodeSubWF (st : NodeSubscriptionState) : Prop :=
  nodeSubsSymmetric st ∧
  noEmptySets st.nodeSubscriptions ∧ noEmptySets st.sessionSubscribers ∧
  (AMap.keys st.nodeSubscriptions).Nodup ∧
  (AMap.keys st.sessionSubscribers).Nodup ∧
  nodupVals st.nodeSubscriptions ∧ nodupVals st.sessionSubscribers

/-! ## Equivalence relation between the two lane-queue implementations -/

/-- Correspondence of one lane's state across the two implementations: the
part_002 variant refines the command-queue.ts variant by replacing the
`active` counter with the id set. -/
def RLane (a : CmdQueueA.LaneA) (b : CmdQueueB.LaneB) : Prop :=
  a.queue = b.queue ∧
  a.maxConcurrent = b.maxConcurrent ∧
  a.draining = b.draining ∧
  a.active = b.activeTaskIds.length ∧
  a.running = b.running.map (fun t => t.entryId)

/-- Pointwise correspondence of the two lane maps. -/
def LanesRel (ma : AMap CmdQueueA.LaneA) (mb : AMap CmdQueueB.LaneB) : Prop :=
  List.Forall₂ (fun ka kb => ka.1 = kb.1 ∧ RLane ka.2 kb.2) ma mb

/-- Representation invariant of a part_002 lane in runs without
`resetAllLanes`: the active id set lists exactly the task ids of the
pending callbacks, the generation is still 0 (as are all snapshots), and
task ids are fresh and distinct. -/
def IBLane (b : CmdQueueB.LaneB) (ntid : Nat) : Prop :=
  b.activeTaskIds = b.running.map (fun t => t.taskId) ∧
  b.generation = 0 ∧
  (∀ t ∈ b.running, t.generation = 0) ∧
  (∀ t ∈ b.running, t.taskId < ntid) ∧
  (b.running.map (fun t => t.taskId)).Nodup

def StateBInv (sb : CmdQueueB.StateB) : Prop :=
  ∀ kl ∈ sb.lanes, IBLane kl.2 sb.nextTaskId

/-- Full correspondence of the two machines' states. -/
def RState (sa : CmdQueueA.StateA) (sb : CmdQueueB.StateB) : Prop :=
  LanesRel sa.lanes sb.lanes ∧
  sa.nextEntryId = sb.nextEntryId ∧
  sa.started = sb.started ∧
  sa.settled = sb.settled ∧
  StateBInv sb

/-! # Theorems -/

namespace AMap

theorem mem_of_get? {α : Type} (m : AMap α) (k : String) (v : α)
    (h : m.get? k = some v) : (k, v) ∈ m := by
  induction m with
  | nil => simp [get?] at h
  | cons hd tl ih =>
    obtain ⟨k₀, v₀⟩ := hd
    by_cases h₀ : k₀ = k
    · subst h₀
      rw [get?, if_pos rfl] at h
      cases h
      exact List.mem_cons_self _ _
    · rw [get?, if_neg h₀] at h
      exact List.mem_cons_of_mem _ (ih h)

end AMap


namespace AMap

theorem get?_set_self {α : Type} (m : AMap α) (k : String) (v : α) :
    (m.set k v).get? k = some v := by
  induction m with
  | nil => simp [set, get?]
  | cons hd tl ih =>
    obtain ⟨k', v'⟩ := hd
    by_cases h : k' = k
    · simp [set, get?, h]
    · simp [set, get?, h, ih]

theorem get?_set_ne {α : Type} (m : AMap α) (k k' : String) (v : α) (h : k ≠ k') :
    (m.set k v).get? k' = m.get? k' := by
  induction m with
  | nil => simp [set, get?, h]
  | cons hd tl ih =>
    obtain ⟨k₀, v₀⟩ := hd
    by_cases h₀ : k₀ = k
    · subst h₀
      simp [set, get?, h]
    · simp [set, get?, h₀, ih]

theorem get?_eq_none_of_not_mem_keys {α : Type} (m : AMap α) (k : String)
    (h : k ∉ m.keys) : m.get? k = none := by
  induction m with
  | nil => simp [get?]
  | cons hd tl ih =>
    obtain ⟨k₀, v₀⟩ := hd
    simp only [keys, List.map_cons, List.mem_cons, not_or] at h
    have hne : k₀ ≠ k := fun he => h.1 he.symm
    simp only [get?, if_neg hne]
    exact ih h.2

theorem get?_erase_self {α : Type} (m : AMap α) (k : String)
    (hnd : (m.keys).Nodup) : (m.erase k).get? k = none := by
  induction m with
  | nil => simp [erase, get?]
  | cons hd tl ih =>
    obtain ⟨k₀, v₀⟩ := hd
    simp only [keys, List.map_cons, List.nodup_cons] at hnd
    by_cases h₀ : k₀ = k
    · subst h₀
      simp only [erase, if_pos rfl]
      exact get?_eq_none_of_not_mem_keys tl k₀ hnd.1
    · simp only [erase, if_neg h₀, get?, if_neg h₀]
      exact ih hnd.2

theorem get?_erase_ne {α : Type} (m : AMap α) (k k' : String) (h : k ≠ k') :
    (m.erase k).get? k' = m.get? k' := by
  induction m with
  | nil => simp [erase, get?]
  | cons hd tl ih =>
    obtain ⟨k₀, v₀⟩ := hd
    by_cases h₀ : k₀ = k
    · subst h₀
      simp [erase, get?, h]
    · simp [erase, get?, h₀, ih]

theorem keys_set {α : Type} (m : AMap α) (k : String) (v : α) :
    (m.set k v).keys = if k ∈ m.keys then m.keys else m.keys ++ [k] := by
  induction m with
  | nil => simp [set, keys]
  | cons hd tl ih =>
    obtain ⟨k₀, v₀⟩ := hd
    by_cases h₀ : k₀ = k
    · subst h₀
      simp [set, keys]
    · have hne : ¬k = k₀ := fun h => h₀ h.symm
      simp only [set, if_neg h₀, keys, List.map_cons, List.mem_cons]
      simp only [keys] at ih
      rw [ih]
      by_cases hmem : k ∈ tl.map Prod.fst
      · simp [hmem, hne]
      · simp [hmem, hne]

theorem keys_nodup_set {α : Type} (m : AMap α) (k : String) (v : α)
    (h : m.keys.Nodup) : (m.set k v).keys.Nodup := by
  rw [keys_set]
  by_cases hmem : k ∈ m.keys
  · simpa [hmem] using h
  · simp only [if_neg hmem]
    simpa [List.nodup_append] using ⟨h, fun hk => hmem hk⟩

theorem keys_erase_sublist {α : Type} (m : AMap α) (k : String) :
    (m.erase k).keys.Sublist m.keys := by
  induction m with
  | nil => simp [erase, keys]
  | cons hd tl ih =>
    obtain ⟨k₀, v₀⟩ := hd
    by_cases h₀ : k₀ = k
    · subst h₀
      simp only [erase, if_pos rfl, keys, List.map_cons]
      exact List.sublist_cons_of_sublist _ (List.Sublist.refl _)
    · simp only [erase, if_neg h₀, keys, List.map_cons]
      exact List.Sublist.cons₂ _ ih

theorem keys_nodup_erase {α : Type} (m : AMap α) (k : String)
    (h : m.keys.Nodup) : (m.erase k).keys.Nodup :=
  (keys_erase_sublist m k).nodup h

end AMap


/-! ### C1: begin-cleanup token -/

/-- **C1.** `beginSubagentCleanup(runId)` returns true exactly when the record
exists in the registry, its `cleanupCompletedAt` is unset and its
`cleanupHandled` flag is not already true; a successful call stores
`cleanupHandled = true`, hence of two calls for the same `runId` with no
intervening reset at most one returns true — at most one announce flow is
launched per completion even when the lifecycle listener and the
`agent.wait` watcher race. The hypothesis states that no record carries the
timestamp 0 (`Date.now()` is positive; the source tests the field by JS
truthiness). -/
theorem beginSubagentCleanup_at_most_once (runId : String) (runs : Registry)
    (hts : ∀ kv ∈ runs, kv.2.cleanupCompletedAt ≠ some 0) :
    ((beginSubagentCleanup runId runs).1 = true ↔
      ∃ e, AMap.get? runs runId = some e ∧ e.cleanupCompletedAt = none ∧
        e.cleanupHandled ≠ some true) ∧
    (∀ e, AMap.get? runs runId = some e → (beginSubagentCleanup runId runs).1 = true →
      AMap.get? (beginSubagentCleanup runId runs).2 runId =
        some { e with cleanupHandled := some true }) ∧
    ¬((beginSubagentCleanup runId runs).1 = true ∧
      (beginSubagentCleanup runId (beginSubagentCleanup runId runs).2).1 = true) := by
  cases hget : AMap.get? runs runId with
  | none =>
    have hrun : beginSubagentCleanup runId runs = (false, runs) := by
      simp [beginSubagentCleanup, hget]
    refine ⟨⟨fun h => ?_, fun h => ?_⟩, fun e' he' _ => ?_, fun h => ?_⟩
    · rw [hrun] at h
      simp at h
    · obtain ⟨e', he', -, -⟩ := h
      simp at he'
    · simp at he'
    · rw [hrun] at h
      simp at h
  | some e =>
    have hts' : e.cleanupCompletedAt ≠ some 0 :=
      hts _ (AMap.mem_of_get? _ _ _ hget)
    by_cases hcca : timestampTruthy e.cleanupCompletedAt
    · have hrun : beginSubagentCleanup runId runs = (false, runs) := by
        simp [beginSubagentCleanup, hget, hcca]
      have hccane : ¬e.cleanupCompletedAt = none := by
        intro h
        rw [h] at hcca
        simp [timestampTruthy] at hcca
      refine ⟨⟨fun h => ?_, fun h => ?_⟩, fun e' he' hret => ?_, fun h => ?_⟩
      · rw [hrun] at h
        simp at h
      · obtain ⟨e', he', hcca', -⟩ := h
        obtain rfl : e = e' := Option.some.inj he'
        exact (hccane hcca').elim
      · rw [hrun] at hret
        simp at hret
      · rw [hrun] at h
        simp at h
    · by_cases hch : e.cleanupHandled.getD false
      · have hchs : e.cleanupHandled = some true := by
          cases h : e.cleanupHandled with
          | none => rw [h] at hch; simp at hch
          | some b => rw [h] at hch; simp at hch; rw [hch]
        have hrun : beginSubagentCleanup runId runs = (false, runs) := by
          simp [beginSubagentCleanup, hget, hcca, hch]
        refine ⟨⟨fun h => ?_, fun h => ?_⟩, fun e' he' hret => ?_, fun h => ?_⟩
        · rw [hrun] at h
          simp at h
        · obtain ⟨e', he', -, hne⟩ := h
          obtain rfl : e = e' := Option.some.inj he'
          exact (hne hchs).elim
        · rw [hrun] at hret
          simp at hret
        · rw [hrun] at h
          simp at h
      · have hcca0 : e.cleanupCompletedAt = none := by
          cases h : e.cleanupCompletedAt with
          | none => rfl
          | some n =>
            rw [h] at hcca hts'
            simp only [timestampTruthy] at hcca
            have hn : n = 0 := by
              by_contra hn0
              exact hcca (by simpa using hn0)
            subst hn
            exact (hts' rfl).elim
        have hchne : e.cleanupHandled ≠ some true := by
          intro h
          rw [h] at hch
          simp at hch
        have hrun : beginSubagentCleanup runId runs =
            (true, AMap.set runs runId { e with cleanupHandled := some true }) := by
          simp [beginSubagentCleanup, hget, hcca, hch]
        refine ⟨⟨fun _ => ⟨e, rfl, hcca0, hchne⟩, fun _ => ?_⟩,
          fun e' he' _ => ?_, fun h => ?_⟩
        · rw [hrun]
        · obtain rfl : e = e' := Option.some.inj he'
          rw [hrun]
          exact AMap.get?_set_self runs runId _
        · obtain ⟨-, h2⟩ := h
          rw [hrun] at h2
          simp [beginSubagentCleanup, AMap.get?_set_self] at h2

/-- **C1 witness.** Concrete two-call run on a one-record registry. -/
theorem beginSubagentCleanup_at_most_once_witness :
    ((beginSubagentCleanup "r1" sampleRegistry).1 = true ↔
      ∃ e, AMap.get? sampleRegistry "r1" = some e ∧ e.cleanupCompletedAt = none ∧
        e.cleanupHandled ≠ some true) ∧
    (∀ e, AMap.get? sampleRegistry "r1" = some e →
      (beginSubagentCleanup "r1" sampleRegistry).1 = true →
      AMap.get? (beginSubagentCleanup "r1" sampleRegistry).2 "r1" =
        some { e with cleanupHandled := some true }) ∧
    ¬((beginSubagentCleanup "r1" sampleRegistry).1 = true ∧
      (beginSubagentCleanup "r1" (beginSubagentCleanup "r1" sampleRegistry).2).1 = true) :=
  beginSubagentCleanup_at_most_once "r1" sampleRegistry (by decide)

/-! ### C3: finalize-cleanup postconditions -/

/-- **C3.** `finalizeSubagentCleanup(runId, cleanup, didAnnounce)` on a
registered run persists in every branch, and: with delete it removes the
record from the map; otherwise with `didAnnounce = false` it resets
`cleanupHandled` to false leaving `cleanupCompletedAt` exactly as it was
(hence unset when it was unset) so a later trigger can retry; otherwise it
stamps `cleanupCompletedAt` with the current time. -/
theorem finalizeSubagentCleanup_cases (runId : String) (cleanup : CleanupMode)
    (didAnnounce : Bool) (now : Int) (runs : Registry) (e : SubagentRunRecord)
    (he : AMap.get? runs runId = some e) (hnd : (AMap.keys runs).Nodup) :
    (finalizeSubagentCleanup runId cleanup didAnnounce now runs).2 = true ∧
    (cleanup = .delete →
      AMap.get? (finalizeSubagentCleanup runId cleanup didAnnounce now runs).1 runId = none) ∧
    (cleanup = .keep → didAnnounce = false →
      ∃ r, AMap.get? (finalizeSubagentCleanup runId cleanup didAnnounce now runs).1 runId =
          some r ∧ r.cleanupHandled = some false ∧
        r.cleanupCompletedAt = e.cleanupCompletedAt) ∧
    (cleanup = .keep → didAnnounce = true →
      AMap.get? (finalizeSubagentCleanup runId cleanup didAnnounce now runs).1 runId =
        some { e with cleanupCompletedAt := some now }) := by
  cases cleanup with
  | delete =>
    refine ⟨?_, fun _ => ?_, fun h => ?_, fun h => ?_⟩
    · simp [finalizeSubagentCleanup, he]
    · simp only [finalizeSubagentCleanup, he]
      exact AMap.get?_erase_self runs runId hnd
    · cases h
    · cases h
  | keep =>
    cases didAnnounce with
    | false =>
      refine ⟨?_, fun h => ?_, fun _ _ => ?_, fun _ h => ?_⟩
      · simp [finalizeSubagentCleanup, he]
      · cases h
      · refine ⟨{ e with cleanupHandled := some false }, ?_, rfl, rfl⟩
        simp only [finalizeSubagentCleanup, he]
        simp [AMap.get?_set_self]
      · cases h
    | true =>
      refine ⟨?_, fun h => ?_, fun _ h => ?_, fun _ _ => ?_⟩
      · simp [finalizeSubagentCleanup, he]
      · cases h
      · cases h
      · simp only [finalizeSubagentCleanup, he]
        simp [AMap.get?_set_self]

/-- **C3 witness.** The keep-and-retry branch on a concrete registry. -/
theorem finalizeSubagentCleanup_cases_witness :
    (finalizeSubagentCleanup "r1" .keep false 99 sampleRegistry).2 = true ∧
    ((.keep : CleanupMode) = .delete →
      AMap.get? (finalizeSubagentCleanup "r1" .keep false 99 sampleRegistry).1 "r1" = none) ∧
    ((.keep : CleanupMode) = .keep → false = false →
      ∃ r, AMap.get? (finalizeSubagentCleanup "r1" .keep false 99 sampleRegistry).1 "r1" =
          some r ∧ r.cleanupHandled = some false ∧
        r.cleanupCompletedAt = sampleRun.cleanupCompletedAt) ∧
    ((.keep : CleanupMode) = .keep → false = true →
      AMap.get? (finalizeSubagentCleanup "r1" .keep false 99 sampleRegistry).1 "r1" =
        some { sampleRun with cleanupCompletedAt := some 99 }) :=
  finalizeSubagentCleanup_cases "r1" .keep false 99 sampleRegistry sampleRun
    (by decide) (by decide)

/-! ### C5: lane clear rejects queued entries with a typed error -/

theorem cleanLane_ne_empty (lane : String) : cleanLane lane ≠ "" := by
  unfold cleanLane
  by_cases h : jsTrim lane = ""
  · simp [h, commandLaneMain]
  · simp [h]

/-- **C5.** `clearCommandLane(lane)` removes every queued (not yet started)
entry of the lane, rejects each removed entry's promise with a
`CommandLaneClearedError` whose message names the lane, returns the number
of entries removed, and leaves the running tasks and all other lane
bookkeeping (active ids, pending callbacks, generation, concurrency,
draining) untouched, as well as every other lane. -/
theorem clearCommandLane_rejects_queued (st : CmdQueueB.StateB) (lane : String)
    (l : CmdQueueB.LaneB)
    (hl : AMap.get? st.lanes (cleanLane lane) = some l) :
    (CmdQueueB.clearCommandLane st lane).1 = l.queue.length ∧
    (CmdQueueB.clearCommandLane st lane).2.1 =
      l.queue.map (fun e => (e, CommandLaneClearedError (some (cleanLane lane)))) ∧
    (∀ p ∈ (CmdQueueB.clearCommandLane st lane).2.1,
      p.2.name = "CommandLaneClearedError" ∧
      p.2.message = "Command lane \"" ++ cleanLane lane ++ "\" cleared") ∧
    AMap.get? (CmdQueueB.clearCommandLane st lane).2.2.lanes (cleanLane lane) =
      some { l with queue := [] } ∧
    (∀ k, k ≠ cleanLane lane →
      AMap.get? (CmdQueueB.clearCommandLane st lane).2.2.lanes k =
        AMap.get? st.lanes k) ∧
    (CmdQueueB.clearCommandLane st lane).2.2.started = st.started ∧
    (CmdQueueB.clearCommandLane st lane).2.2.settled = st.settled := by
  have herr : CommandLaneClearedError (some (cleanLane lane)) =
      { name := "CommandLaneClearedError"
        message := "Command lane \"" ++ cleanLane lane ++ "\" cleared" } := by
    simp [CommandLaneClearedError, cleanLane_ne_empty lane]
  refine ⟨?_, ?_, ?_, ?_, ?_, ?_, ?_⟩
  · simp [CmdQueueB.clearCommandLane, hl]
  · simp [CmdQueueB.clearCommandLane, hl]
  · intro p hp
    simp only [CmdQueueB.clearCommandLane, hl] at hp
    obtain ⟨e, -, rfl⟩ := List.mem_map.mp hp
    rw [herr]
    exact ⟨rfl, rfl⟩
  · simp only [CmdQueueB.clearCommandLane, hl]
    exact AMap.get?_set_self _ _ _
  · intro k hk
    simp only [CmdQueueB.clearCommandLane, hl]
    exact AMap.get?_set_ne _ _ _ _ (fun h => hk h.symm)
  · simp [CmdQueueB.clearCommandLane, hl]
  · simp [CmdQueueB.clearCommandLane, hl]

/-- **C5 witness.** Clearing the concrete "main" lane with two queued
entries and one running task. -/
theorem clearCommandLane_rejects_queued_witness :
    (CmdQueueB.clearCommandLane sampleStateB "main").1 = sampleLaneB.queue.length ∧
    (CmdQueueB.clearCommandLane sampleStateB "main").2.1 =
      sampleLaneB.queue.map
        (fun e => (e, CommandLaneClearedError (some (cleanLane "main")))) ∧
    (∀ p ∈ (CmdQueueB.clearCommandLane sampleStateB "main").2.1,
      p.2.name = "CommandLaneClearedError" ∧
      p.2.message = "Command lane \"" ++ cleanLane "main" ++ "\" cleared") ∧
    AMap.get? (CmdQueueB.clearCommandLane sampleStateB "main").2.2.lanes
        (cleanLane "main") = some { sampleLaneB with queue := [] } ∧
    (∀ k, k ≠ cleanLane "main" →
      AMap.get? (CmdQueueB.clearCommandLane sampleStateB "main").2.2.lanes k =
        AMap.get? sampleStateB.lanes k) ∧
    (CmdQueueB.clearCommandLane sampleStateB "main").2.2.started =
      sampleStateB.started ∧
    (CmdQueueB.clearCommandLane sampleStateB "main").2.2.settled =
      sampleStateB.settled :=
  clearCommandLane_rejects_queued sampleStateB "main" sampleLaneB (by decide)

/-! ### C4: collect-mode queue decision -/

/-- **C4 counterexample.** With queue mode "collect", a session id present
and the parent run idle, `maybeQueueSubagentAnnounce` returns "none" — the
claim that collect mode always enqueues regardless of run activity is false
on the code. -/
theorem maybeQueueSubagentAnnounce_collect_counterexample :
    maybeQueueSubagentAnnounce
      { sessionId := some "sess-1", queueMode := "collect",
        isActive := false, steerAccepts := false } = .noQueue := by decide

/-- **C4 (amended).** With queue mode "collect" and a truthy session id, the
decision enqueues exactly when the requester's embedded run is active; when
the run is idle it returns "none" and the flow falls through to the direct
send. -/
theorem maybeQueueSubagentAnnounce_collect (env : RequesterSessionEnv)
    (hm : env.queueMode = "collect") (hs : strFalsy env.sessionId = false) :
    maybeQueueSubagentAnnounce env =
      (if env.isActive then .queued else .noQueue) := by
  cases hact : env.isActive <;>
    simp [maybeQueueSubagentAnnounce, hm, hs, hact]

/-- **C4 witness.** The active-parent collect case enqueues. -/
theorem maybeQueueSubagentAnnounce_collect_witness :
    maybeQueueSubagentAnnounce
      { sessionId := some "sess-1", queueMode := "collect",
        isActive := true, steerAccepts := false } =
      (if ({ sessionId := some "sess-1", queueMode := "collect",
             isActive := true, steerAccepts := false } : RequesterSessionEnv).isActive
       then .queued else .noQueue) :=
  maybeQueueSubagentAnnounce_collect
    { sessionId := some "sess-1", queueMode := "collect",
      isActive := true, steerAccepts := false } (by decide) (by decide)

/-! ### C2: ANNOUNCE_SKIP is not honoured by the code -/

/-- **C2.** Evaluation at the failing input: the child's latest reply is
exactly "ANNOUNCE_SKIP", the child run has settled, the requester queue mode
is "collect" with an idle parent. The flow does not publish nothing — it
direct-sends the trigger message built from the skipped reply. The source of
`runSubagentAnnounceFlow` contains no check for the `ANNOUNCE_SKIP`
sentinel that its documentation (docs/tools/subagents-cn.md) promises. -/
theorem runSubagentAnnounceFlow_publishes_on_announce_skip :
    runSubagentAnnounceFlowCore
      { childSessionIdKnown := true, activeAtSettle := false, settleEnded := false,
        activeAfterSettle := false, activeAtReplyCheck := false }
      { sessionId := some "sess-1", queueMode := "collect",
        isActive := false, steerAccepts := false }
      none none "t" (some "ANNOUNCE_SKIP")
      { status := .ok, error := none } "Stats: runtime n/a" =
    some (.direct (triggerMessage "subagent task" "t" (some "ANNOUNCE_SKIP")
      { status := .ok, error := none } "Stats: runtime n/a")) := by
  rfl

/-! ### C9: status phrase depends only on the outcome -/

/-- **C9.** For two announce-flow executions carrying the same outcome but
arbitrary (possibly different) replies, the trigger messages share the same
first line, which embeds the status phrase; the phrase is determined solely
by the outcome: "completed successfully" for ok, "timed out" for timeout,
"failed: <error or unknown error>" for error, and "finished with unknown
status" otherwise. The reply only appears after the first line break. -/
theorem triggerMessage_status_from_outcome
    (announceType taskLabel statsLine : String)
    (r₁ r₂ : Option String) (o : SubagentRunOutcome) :
    (∃ t₁ t₂,
      triggerMessage announceType taskLabel r₁ o statsLine =
        ("A " ++ announceType ++ "\x20\"" ++ taskLabel ++ "\" just " ++
          statusLabel o ++ ".") ++ "\n" ++ t₁ ∧
      triggerMessage announceType taskLabel r₂ o statsLine =
        ("A " ++ announceType ++ "\x20\"" ++ taskLabel ++ "\" just " ++
          statusLabel o ++ ".") ++ "\n" ++ t₂) ∧
    statusLabel o = (match o.status with
      | .ok => "completed successfully"
      | .timeout => "timed out"
      | .error => "failed: " ++ (match o.error with
          | some e => if e = "" then "unknown error" else e
          | none => "unknown error")
      | .unknown => "finished with unknown status") := by
  exact ⟨⟨_, _, rfl, rfl⟩, rfl⟩

/-! ### C7: v1 to v2 migration -/

theorem foldl_loadStep_get?_of_not_mem (nf : Normalizers) (leg : Bool)
    (l : List (String × LegacySubagentRunRecord)) (acc : Registry × Bool)
    (k : String) (h : ∀ kv ∈ l, kv.1 ≠ k) :
    AMap.get? (l.foldl (loadStep nf leg) acc).1 k = AMap.get? acc.1 k := by
  induction l generalizing acc with
  | nil => rfl
  | cons hd tl ih =>
    have hhd : hd.1 ≠ k := h hd (List.mem_cons_self _ _)
    have htl : ∀ kv ∈ tl, kv.1 ≠ k := fun kv hkv => h kv (List.mem_cons_of_mem _ hkv)
    rw [List.foldl_cons, ih _ htl]
    unfold loadStep
    cases hrid : hd.2.runId with
    | none => rfl
    | some v =>
      cases v with
      | jstr rid =>
        by_cases h0 : rid = ""
        · simp [h0]
        · simp only [if_neg h0]
          exact AMap.get?_set_ne _ _ _ _ hhd
      | jnum n => rfl
      | jbool b => rfl
      | jnull => rfl

theorem foldl_loadStep_get?_of_mem (nf : Normalizers) (leg : Bool)
    (l : List (String × LegacySubagentRunRecord)) (acc : Registry × Bool)
    (k rid : String) (raw : LegacySubagentRunRecord)
    (hmem : (k, raw) ∈ l) (hnd : (l.map Prod.fst).Nodup)
    (hrid : raw.runId = some (.jstr rid)) (hrid0 : rid ≠ "") :
    AMap.get? (l.foldl (loadStep nf leg) acc).1 k =
      some (migrateLegacyRun nf leg rid raw) := by
  induction l generalizing acc with
  | nil => cases hmem
  | cons hd tl ih =>
    simp only [List.map_cons, List.nodup_cons] at hnd
    rcases List.mem_cons.mp hmem with heq | htl
    · subst heq
      have htlne : ∀ kv ∈ tl, kv.1 ≠ k := by
        intro kv hkv hk
        apply hnd.1
        rw [← hk]
        exact List.mem_map.mpr ⟨kv, hkv, rfl⟩
      rw [List.foldl_cons, foldl_loadStep_get?_of_not_mem nf leg tl _ k htlne]
      unfold loadStep
      simp only [hrid, if_neg hrid0]
      exact AMap.get?_set_self _ _ _
    · exact ih _ htl hnd.2

theorem foldl_loadStep_flag_stays (nf : Normalizers) (leg : Bool)
    (l : List (String × LegacySubagentRunRecord)) (acc : Registry × Bool)
    (h : acc.2 = true) : (l.foldl (loadStep nf leg) acc).2 = true := by
  induction l generalizing acc with
  | nil => exact h
  | cons hd tl ih =>
    rw [List.foldl_cons]
    apply ih
    unfold loadStep
    cases hrid : hd.2.runId with
    | none => exact h
    | some v =>
      cases v with
      | jstr rid =>
        by_cases h0 : rid = ""
        · simp [h0, h]
        · simp [h0, h]
      | jnum n => exact h
      | jbool b => exact h
      | jnull => exact h

theorem foldl_loadStep_flag_of_mem (nf : Normalizers)
    (l : List (String × LegacySubagentRunRecord)) (acc : Registry × Bool)
    (k rid : String) (raw : LegacySubagentRunRecord)
    (hmem : (k, raw) ∈ l)
    (hrid : raw.runId = some (.jstr rid)) (hrid0 : rid ≠ "") :
    (l.foldl (loadStep nf true) acc).2 = true := by
  induction l generalizing acc with
  | nil => cases hmem
  | cons hd tl ih =>
    rcases List.mem_cons.mp hmem with heq | htl
    · subst heq
      rw [List.foldl_cons]
      apply foldl_loadStep_flag_stays
      unfold loadStep
      simp [hrid, if_neg hrid0]
    · exact ih _ htl

theorem migrateLegacyRun_legacy_fields (nf : Normalizers) (rid : String)
    (raw : LegacySubagentRunRecord) (t : Int)
    (hcc : isNumJVal raw.cleanupCompletedAt = false)
    (hch : isBoolJVal raw.cleanupHandled = false)
    (hro : raw.requesterOrigin = none)
    (hac : raw.announceCompletedAt = some (.jnum t)) :
    (migrateLegacyRun nf true rid raw).cleanupCompletedAt = some t ∧
    (∀ v, denullish raw.announceHandled = some v →
      (migrateLegacyRun nf true rid raw).cleanupHandled = some (jvalTruthy v)) ∧
    (denullish raw.announceHandled = none →
      (migrateLegacyRun nf true rid raw).cleanupHandled =
        some (timestampTruthy (some t))) ∧
    (migrateLegacyRun nf true rid raw).requesterOrigin =
      normalizeDeliveryContext nf (some
        { channel := match raw.requesterChannel with
            | some (.jstr s) => some s
            | _ => none
          toId := none
          accountId := match raw.requesterAccountId with
            | some (.jstr s) => some s
            | _ => none
          threadId := none }) ∧
    (migrateLegacyRun nf true rid raw).runId = rid := by
  have hccm : (match raw.cleanupCompletedAt with
      | some (.jnum n) => some n
      | _ => (match raw.announceCompletedAt with
          | some (.jnum n) => some n
          | _ => (none : Option Int))) = some t := by
    cases hx : raw.cleanupCompletedAt with
    | none => rw [hac]
    | some v =>
      cases v with
      | jnum n => rw [hx] at hcc; simp [isNumJVal] at hcc
      | jstr s => rw [hac]
      | jbool b => rw [hac]
      | jnull => rw [hac]
  have hchm : ∀ x : Option Bool,
      (match raw.cleanupHandled with
        | some (.jbool b) => some b
        | _ => x) = x := by
    intro x
    cases hx : raw.cleanupHandled with
    | none => rfl
    | some v =>
      cases v with
      | jbool b => rw [hx] at hch; simp [isBoolJVal] at hch
      | jnum n => rfl
      | jstr s => rfl
      | jnull => rfl
  refine ⟨?_, ?_, ?_, ?_, rfl⟩
  · simp only [migrateLegacyRun, if_pos rfl]
    exact hccm
  · intro v hv
    simp only [migrateLegacyRun]
    rw [hchm, hv]
    simp
  · intro hv
    simp only [migrateLegacyRun]
    rw [hchm, hv]
    simp [hccm]
  · simp only [migrateLegacyRun, hro]

/-- **C7.** Loading a version-1 envelope migrates the legacy fields of each
(valid, legacy-only) record: a numeric `announceCompletedAt` becomes
`cleanupCompletedAt`; `announceHandled` (by JS truthiness) becomes
`cleanupHandled`, falling back to the truthiness of the migrated
`cleanupCompletedAt` when `announceHandled` is nullish; `requesterChannel`
and `requesterAccountId` are folded into the normalized `requesterOrigin`
when no `requesterOrigin` is present; and the migrated registry is re-saved
to disk as a version-2 envelope. -/
theorem loadSubagentRegistry_v1_migration (nf : Normalizers)
    (env : PersistedSubagentRegistry) (k rid : String)
    (raw : LegacySubagentRunRecord) (t : Int)
    (hver : env.version = 1)
    (hnd : (env.runs.map Prod.fst).Nodup)
    (hmem : (k, raw) ∈ env.runs)
    (hrid : raw.runId = some (.jstr rid)) (hrid0 : rid ≠ "")
    (hcc : isNumJVal raw.cleanupCompletedAt = false)
    (hch : isBoolJVal raw.cleanupHandled = false)
    (hro : raw.requesterOrigin = none)
    (hac : raw.announceCompletedAt = some (.jnum t)) :
    (∃ r, AMap.get? (loadSubagentRegistryFromDisk nf env).1 k = some r ∧
      r.cleanupCompletedAt = some t ∧
      (∀ v, denullish raw.announceHandled = some v →
        r.cleanupHandled = some (jvalTruthy v)) ∧
      (denullish raw.announceHandled = none →
        r.cleanupHandled = some (timestampTruthy (some t))) ∧
      r.requesterOrigin = normalizeDeliveryContext nf (some
        { channel := match raw.requesterChannel with
            | some (.jstr s) => some s
            | _ => none
          toId := none
          accountId := match raw.requesterAccountId with
            | some (.jstr s) => some s
            | _ => none
          threadId := none }) ∧
      r.runId = rid) ∧
    (loadSubagentRegistryFromDisk nf env).2 =
      some { version := 2, runs := (loadSubagentRegistryFromDisk nf env).1 } := by
  have hload : loadSubagentRegistryFromDisk nf env =
      (let folded := env.runs.foldl (loadStep nf true) (AMap.empty, false)
       (folded.1, if folded.2 then some (saveSubagentRegistryToDisk folded.1) else none)) := by
    unfold loadSubagentRegistryFromDisk
    rw [hver]
    simp
  rw [hload]
  simp only
  have hget := foldl_loadStep_get?_of_mem nf true env.runs (AMap.empty, false)
    k rid raw hmem hnd hrid hrid0
  have hflag := foldl_loadStep_flag_of_mem nf env.runs (AMap.empty, false)
    k rid raw hmem hrid hrid0
  obtain ⟨h1, h2, h3, h4, h5⟩ :=
    migrateLegacyRun_legacy_fields nf rid raw t hcc hch hro hac
  exact ⟨⟨migrateLegacyRun nf true rid raw, hget, h1, h2, h3, h4, h5⟩,
    by rw [hflag]; rfl⟩

/-- **C7 witness.** Loading a concrete one-record version-1 envelope. -/
theorem loadSubagentRegistry_v1_migration_witness :
    (∃ r, AMap.get?
        (loadSubagentRegistryFromDisk sampleNormalizers sampleV1Envelope).1 "r1" =
          some r ∧
      r.cleanupCompletedAt = some 42 ∧
      (∀ v, denullish sampleLegacyRun.announceHandled = some v →
        r.cleanupHandled = some (jvalTruthy v)) ∧
      (denullish sampleLegacyRun.announceHandled = none →
        r.cleanupHandled = some (timestampTruthy (some 42))) ∧
      r.requesterOrigin = normalizeDeliveryContext sampleNormalizers (some
        { channel := match sampleLegacyRun.requesterChannel with
            | some (.jstr s) => some s
            | _ => none
          toId := none
          accountId := match sampleLegacyRun.requesterAccountId with
            | some (.jstr s) => some s
            | _ => none
          threadId := none }) ∧
      r.runId = "r1") ∧
    (loadSubagentRegistryFromDisk sampleNormalizers sampleV1Envelope).2 =
      some { version := 2,
             runs := (loadSubagentRegistryFromDisk sampleNormalizers sampleV1Envelope).1 } :=
  loadSubagentRegistry_v1_migration sampleNormalizers sampleV1Envelope "r1" "r1"
    sampleLegacyRun 42 (by decide) (by decide) (by decide) (by decide)
    (by decide) (by decide) (by decide) (by decide) (by decide)

/-! ### C8: node subscription symmetry -/

theorem getSet_set_self (m : AMap (List String)) (k : String) (v : List String) :
    getSet (AMap.set m k v) k = v := by
  simp [getSet, AMap.get?_set_self]

theorem getSet_set_ne (m : AMap (List String)) (k k' : String) (v : List String)
    (h : k ≠ k') : getSet (AMap.set m k v) k' = getSet m k' := by
  simp [getSet, AMap.get?_set_ne m k k' v h]

theorem getSet_erase_self (m : AMap (List String)) (k : String)
    (hnd : (AMap.keys m).Nodup) : getSet (AMap.erase m k) k = [] := by
  simp [getSet, AMap.get?_erase_self m k hnd]

theorem getSet_erase_ne (m : AMap (List String)) (k k' : String)
    (h : k ≠ k') : getSet (AMap.erase m k) k' = getSet m k' := by
  simp [getSet, AMap.get?_erase_ne m k k' h]

theorem getSet_nodup (m : AMap (List String)) (k : String)
    (h : nodupVals m) : (getSet m k).Nodup := by
  unfold getSet
  cases hg : AMap.get? m k with
  | none => simp
  | some l => exact h k l hg

theorem mem_addToSet (l : List String) (x a : String) :
    a ∈ addToSet l x ↔ a = x ∨ a ∈ l := by
  unfold addToSet
  by_cases h : x ∈ l
  · simp only [if_pos h]
    constructor
    · exact Or.inr
    · rintro (rfl | ha)
      · exact h
      · exact ha
  · simp [if_neg h, or_comm]

theorem addToSet_nodup (l : List String) (x : String) (h : l.Nodup) :
    (addToSet l x).Nodup := by
  unfold addToSet
  by_cases hx : x ∈ l
  · simpa [hx] using h
  · rw [if_neg hx, List.nodup_append]
    refine ⟨h, List.nodup_singleton x, ?_⟩
    intro a ha hb
    rw [List.mem_singleton] at hb
    subst hb
    exact hx ha

theorem addToSet_ne_nil (l : List String) (x : String) : addToSet l x ≠ [] := by
  unfold addToSet
  by_cases hx : x ∈ l
  · simp only [if_pos hx]
    rintro rfl
    cases hx
  · simp [if_neg hx]

theorem get?_pruneEntry_ne (m : AMap (List String)) (k k' x : String)
    (h : k ≠ k') : AMap.get? (pruneEntry m k x) k' = AMap.get? m k' := by
  cases hg : AMap.get? m k with
  | none => simp [pruneEntry, hg]
  | some l =>
    simp only [pruneEntry, hg]
    by_cases he : l.erase x = []
    · rw [if_pos he]
      exact AMap.get?_erase_ne m k k' h
    · rw [if_neg he]
      exact AMap.get?_set_ne m k k' _ h

theorem getSet_pruneEntry_self (m : AMap (List String)) (k x : String)
    (hnd : (AMap.keys m).Nodup) :
    getSet (pruneEntry m k x) k = (getSet m k).erase x := by
  cases hg : AMap.get? m k with
  | none => simp [pruneEntry, hg, getSet]
  | some l =>
    simp only [pruneEntry, hg]
    by_cases he : l.erase x = []
    · rw [if_pos he, getSet_erase_self m k hnd]
      simp [getSet, hg, he]
    · rw [if_neg he, getSet_set_self]
      simp [getSet, hg]

theorem pruneEntry_keys_nodup (m : AMap (List String)) (k x : String)
    (h : (AMap.keys m).Nodup) : (AMap.keys (pruneEntry m k x)).Nodup := by
  cases hg : AMap.get? m k with
  | none => simpa [pruneEntry, hg] using h
  | some l =>
    simp only [pruneEntry, hg]
    by_cases he : l.erase x = []
    · rw [if_pos he]
      exact AMap.keys_nodup_erase m k h
    · rw [if_neg he]
      exact AMap.keys_nodup_set m k _ h

theorem pruneEntry_noEmpty (m : AMap (List String)) (k x : String)
    (hnd : (AMap.keys m).Nodup) (h : noEmptySets m) :
    noEmptySets (pruneEntry m k x) := by
  intro k' l' hg'
  cases hg : AMap.get? m k with
  | none =>
    simp only [pruneEntry, hg] at hg'
    exact h k' l' hg'
  | some l =>
    simp only [pruneEntry, hg] at hg'
    by_cases he : l.erase x = []
    · rw [if_pos he] at hg'
      by_cases hkk : k = k'
      · subst hkk
        rw [AMap.get?_erase_self m k hnd] at hg'
        cases hg'
      · rw [AMap.get?_erase_ne m k k' hkk] at hg'
        exact h k' l' hg'
    · rw [if_neg he] at hg'
      by_cases hkk : k = k'
      · subst hkk
        rw [AMap.get?_set_self] at hg'
        cases hg'
        exact he
      · rw [AMap.get?_set_ne m k k' _ hkk] at hg'
        exact h k' l' hg'

theorem pruneEntry_nodupVals (m : AMap (List String)) (k x : String)
    (hnd : (AMap.keys m).Nodup) (h : nodupVals m) :
    nodupVals (pruneEntry m k x) := by
  intro k' l' hg'
  cases hg : AMap.get? m k with
  | none =>
    simp only [pruneEntry, hg] at hg'
    exact h k' l' hg'
  | some l =>
    simp only [pruneEntry, hg] at hg'
    by_cases he : l.erase x = []
    · rw [if_pos he] at hg'
      by_cases hkk : k = k'
      · subst hkk
        rw [AMap.get?_erase_self m k hnd] at hg'
        cases hg'
      · rw [AMap.get?_erase_ne m k k' hkk] at hg'
        exact h k' l' hg'
    · rw [if_neg he] at hg'
      by_cases hkk : k = k'
      · subst hkk
        rw [AMap.get?_set_self] at hg'
        cases hg'
        exact List.Nodup.erase x (h k l hg)
      · rw [AMap.get?_set_ne m k k' _ hkk] at hg'
        exact h k' l' hg'

theorem getSet_pruneEntry_ne (m : AMap (List String)) (k k' x : String)
    (h : k ≠ k') : getSet (pruneEntry m k x) k' = getSet m k' := by
  simp [getSet, get?_pruneEntry_ne m k k' x h]

theorem appendNew_nodup (l : List String) (x : String) (h : l.Nodup)
    (hx : x ∉ l) : (l ++ [x]).Nodup := by
  rw [List.nodup_append]
  refine ⟨h, List.nodup_singleton x, ?_⟩
  intro a ha hb
  rw [List.mem_singleton] at hb
  subst hb
  exact hx ha

theorem subscribe_WF (st : NodeSubscriptionState) (nodeId sessionKey : String)
    (h : NodeSubWF st) : NodeSubWF (subscribe st nodeId sessionKey) := by
  obtain ⟨hsym, hne1, hne2, hk1, hk2, hv1, hv2⟩ := h
  simp only [subscribe]
  by_cases hg : jsTrim nodeId = "" ∨ jsTrim sessionKey = ""
  · rw [if_pos hg]
    exact ⟨hsym, hne1, hne2, hk1, hk2, hv1, hv2⟩
  · rw [if_neg hg]
    by_cases hmem : jsTrim sessionKey ∈ getSet st.nodeSubscriptions (jsTrim nodeId)
    · rw [if_pos hmem]
      exact ⟨hsym, hne1, hne2, hk1, hk2, hv1, hv2⟩
    · rw [if_neg hmem]
      refine ⟨?_, ?_, ?_, ?_, ?_, ?_, ?_⟩
      · intro n' s'
        by_cases hn' : n' = jsTrim nodeId
        · subst hn'
          rw [getSet_set_self]
          by_cases hs' : s' = jsTrim sessionKey
          · subst hs'
            rw [getSet_set_self]
            constructor
            · intro _
              rw [mem_addToSet]
              exact Or.inl rfl
            · intro _
              simp
          · rw [getSet_set_ne _ _ _ _ (fun hh => hs' hh.symm)]
            have hlhs : s' ∈ getSet st.nodeSubscriptions (jsTrim nodeId) ++
                  [jsTrim sessionKey] ↔
                s' ∈ getSet st.nodeSubscriptions (jsTrim nodeId) := by
              simp [hs']
            rw [hlhs]
            exact hsym (jsTrim nodeId) s'
        · rw [getSet_set_ne _ _ _ _ (fun hh => hn' hh.symm)]
          by_cases hs' : s' = jsTrim sessionKey
          · subst hs'
            rw [getSet_set_self, mem_addToSet]
            rw [hsym n' (jsTrim sessionKey)]
            constructor
            · exact Or.inr
            · rintro (he | hm)
              · exact (hn' he).elim
              · exact hm
          · rw [getSet_set_ne _ _ _ _ (fun hh => hs' hh.symm)]
            exact hsym n' s'
      · intro k l hgl
        by_cases hk : k = jsTrim nodeId
        · subst hk
          rw [AMap.get?_set_self] at hgl
          cases hgl
          simp
        · rw [AMap.get?_set_ne _ _ _ _ (fun hh => hk hh.symm)] at hgl
          exact hne1 k l hgl
      · intro k l hgl
        by_cases hk : k = jsTrim sessionKey
        · subst hk
          rw [AMap.get?_set_self] at hgl
          cases hgl
          exact addToSet_ne_nil _ _
        · rw [AMap.get?_set_ne _ _ _ _ (fun hh => hk hh.symm)] at hgl
          exact hne2 k l hgl
      · exact AMap.keys_nodup_set _ _ _ hk1
      · exact AMap.keys_nodup_set _ _ _ hk2
      · intro k l hgl
        by_cases hk : k = jsTrim nodeId
        · subst hk
          rw [AMap.get?_set_self] at hgl
          cases hgl
          exact appendNew_nodup _ _ (getSet_nodup _ _ hv1) hmem
        · rw [AMap.get?_set_ne _ _ _ _ (fun hh => hk hh.symm)] at hgl
          exact hv1 k l hgl
      · intro k l hgl
        by_cases hk : k = jsTrim sessionKey
        · subst hk
          rw [AMap.get?_set_self] at hgl
          cases hgl
          exact addToSet_nodup _ _ (getSet_nodup _ _ hv2)
        · rw [AMap.get?_set_ne _ _ _ _ (fun hh => hk hh.symm)] at hgl
          exact hv2 k l hgl

theorem unsubscribe_WF (st : NodeSubscriptionState) (nodeId sessionKey : String)
    (h : NodeSubWF st) : NodeSubWF (unsubscribe st nodeId sessionKey) := by
  obtain ⟨hsym, hne1, hne2, hk1, hk2, hv1, hv2⟩ := h
  simp only [unsubscribe]
  by_cases hg : jsTrim nodeId = "" ∨ jsTrim sessionKey = ""
  · rw [if_pos hg]
    exact ⟨hsym, hne1, hne2, hk1, hk2, hv1, hv2⟩
  · rw [if_neg hg]
    refine ⟨?_, ?_, ?_, ?_, ?_, ?_, ?_⟩
    · intro n' s'
      by_cases hn' : n' = jsTrim nodeId
      · subst hn'
        rw [getSet_pruneEntry_self _ _ _ hk1]
        by_cases hs' : s' = jsTrim sessionKey
        · subst hs'
          rw [getSet_pruneEntry_self _ _ _ hk2]
          constructor
          · intro hin
            exact (((getSet_nodup _ _ hv1).mem_erase_iff.mp hin).1 rfl).elim
          · intro hin
            exact (((getSet_nodup _ _ hv2).mem_erase_iff.mp hin).1 rfl).elim
        · rw [getSet_pruneEntry_ne _ _ _ _ (fun hh => hs' hh.symm)]
          rw [(getSet_nodup _ _ hv1).mem_erase_iff]
          rw [← hsym (jsTrim nodeId) s']
          constructor
          · exact And.right
          · intro hin
            exact ⟨hs', hin⟩
      · rw [getSet_pruneEntry_ne _ _ _ _ (fun hh => hn' hh.symm)]
        by_cases hs' : s' = jsTrim sessionKey
        · subst hs'
          rw [getSet_pruneEntry_self _ _ _ hk2]
          rw [(getSet_nodup _ _ hv2).mem_erase_iff]
          rw [hsym n' (jsTrim sessionKey)]
          constructor
          · intro hin
            exact ⟨hn', hin⟩
          · exact And.right
        · rw [getSet_pruneEntry_ne _ _ _ _ (fun hh => hs' hh.symm)]
          exact hsym n' s'
    · exact pruneEntry_noEmpty _ _ _ hk1 hne1
    · exact pruneEntry_noEmpty _ _ _ hk2 hne2
    · exact pruneEntry_keys_nodup _ _ _ hk1
    · exact pruneEntry_keys_nodup _ _ _ hk2
    · exact pruneEntry_nodupVals _ _ _ hk1 hv1
    · exact pruneEntry_nodupVals _ _ _ hk2 hv2

theorem foldl_prune_get?_not_mem (L : List String) (m : AMap (List String))
    (n s : String) (hs : s ∉ L) :
    AMap.get? (L.foldl (fun acc k => pruneEntry acc k n) m) s = AMap.get? m s := by
  induction L generalizing m with
  | nil => rfl
  | cons a L' ih =>
    simp only [List.mem_cons, not_or] at hs
    rw [List.foldl_cons, ih _ hs.2]
    exact get?_pruneEntry_ne m a s n (fun hh => hs.1 hh.symm)

theorem foldl_prune_getSet (L : List String) (m : AMap (List String))
    (n s : String) (hLnd : L.Nodup) (hknd : (AMap.keys m).Nodup) :
    getSet (L.foldl (fun acc k => pruneEntry acc k n) m) s =
      if s ∈ L then (getSet m s).erase n else getSet m s := by
  induction L generalizing m with
  | nil => simp
  | cons a L' ih =>
    rw [List.nodup_cons] at hLnd
    rw [List.foldl_cons]
    by_cases hsa : s = a
    · subst hsa
      have h1 : AMap.get? (L'.foldl (fun acc k => pruneEntry acc k n)
          (pruneEntry m s n)) s = AMap.get? (pruneEntry m s n) s :=
        foldl_prune_get?_not_mem L' _ n s hLnd.1
      have h2 : getSet (L'.foldl (fun acc k => pruneEntry acc k n)
          (pruneEntry m s n)) s = getSet (pruneEntry m s n) s := by
        simp [getSet, h1]
      rw [h2, getSet_pruneEntry_self m s n hknd]
      simp
    · rw [ih (pruneEntry m a n) hLnd.2 (pruneEntry_keys_nodup m a n hknd)]
      rw [getSet_pruneEntry_ne m a s n (fun hh => hsa hh.symm)]
      simp [hsa]

theorem foldl_prune_WFmap (L : List String) (m : AMap (List String)) (n : String)
    (hknd : (AMap.keys m).Nodup) (hne : noEmptySets m) (hv : nodupVals m) :
    (AMap.keys (L.foldl (fun acc k => pruneEntry acc k n) m)).Nodup ∧
    noEmptySets (L.foldl (fun acc k => pruneEntry acc k n) m) ∧
    nodupVals (L.foldl (fun acc k => pruneEntry acc k n) m) := by
  induction L generalizing m with
  | nil => exact ⟨hknd, hne, hv⟩
  | cons a L' ih =>
    rw [List.foldl_cons]
    exact ih (pruneEntry m a n) (pruneEntry_keys_nodup m a n hknd)
      (pruneEntry_noEmpty m a n hknd hne) (pruneEntry_nodupVals m a n hknd hv)

theorem unsubscribeAll_WF (st : NodeSubscriptionState) (nodeId : String)
    (h : NodeSubWF st) : NodeSubWF (unsubscribeAll st nodeId) := by
  obtain ⟨hsym, hne1, hne2, hk1, hk2, hv1, hv2⟩ := h
  cases hg : AMap.get? st.nodeSubscriptions (jsTrim nodeId) with
  | none =>
    simp only [unsubscribeAll, hg]
    exact ⟨hsym, hne1, hne2, hk1, hk2, hv1, hv2⟩
  | some nodeSet =>
    simp only [unsubscribeAll, hg]
    have hnsnd : nodeSet.Nodup := hv1 _ _ hg
    have hnsget : getSet st.nodeSubscriptions (jsTrim nodeId) = nodeSet := by
      simp [getSet, hg]
    have hfold := fun s => foldl_prune_getSet nodeSet st.sessionSubscribers
      (jsTrim nodeId) s hnsnd hk2
    obtain ⟨hfk, hfne, hfv⟩ := foldl_prune_WFmap nodeSet st.sessionSubscribers
      (jsTrim nodeId) hk2 hne2 hv2
    refine ⟨?_, ?_, ?_, ?_, ?_, ?_, ?_⟩
    · intro n' s'
      rw [hfold s']
      by_cases hn' : n' = jsTrim nodeId
      · subst hn'
        rw [getSet_erase_self _ _ hk1]
        by_cases hs' : s' ∈ nodeSet
        · rw [if_pos hs']
          constructor
          · intro hin
            cases hin
          · intro hin
            exact ((((getSet_nodup _ _ hv2).mem_erase_iff).mp hin).1 rfl).elim
        · rw [if_neg hs']
          constructor
          · intro hin
            cases hin
          · intro hin
            rw [← hsym (jsTrim nodeId) s'] at hin
            rw [hnsget] at hin
            exact (hs' hin).elim
      · rw [getSet_erase_ne _ _ _ (fun hh => hn' hh.symm)]
        by_cases hs' : s' ∈ nodeSet
        · rw [if_pos hs']
          rw [(getSet_nodup _ _ hv2).mem_erase_iff]
          rw [← hsym n' s']
          constructor
          · intro hin
            exact ⟨hn', hin⟩
          · exact And.right
        · rw [if_neg hs']
          exact hsym n' s'
    · intro k l hgl
      by_cases hk : k = jsTrim nodeId
      · subst hk
        rw [AMap.get?_erase_self _ _ hk1] at hgl
        cases hgl
      · rw [AMap.get?_erase_ne _ _ _ (fun hh => hk hh.symm)] at hgl
        exact hne1 k l hgl
    · exact hfne
    · exact AMap.keys_nodup_erase _ _ hk1
    · exact hfk
    · intro k l hgl
      by_cases hk : k = jsTrim nodeId
      · subst hk
        rw [AMap.get?_erase_self _ _ hk1] at hgl
        cases hgl
      · rw [AMap.get?_erase_ne _ _ _ (fun hh => hk hh.symm)] at hgl
        exact hv1 k l hgl
    · exact hfv

theorem applyNodeSubOp_WF (st : NodeSubscriptionState) (op : NodeSubOp)
    (h : NodeSubWF st) : NodeSubWF (applyNodeSubOp st op) := by
  cases op with
  | sub n s => exact subscribe_WF st n s h
  | unsub n s => exact unsubscribe_WF st n s h
  | unsubAll n => exact unsubscribeAll_WF st n h

theorem NodeSubWF_empty : NodeSubWF NodeSubscriptionState.empty := by
  refine ⟨?_, ?_, ?_, ?_, ?_, ?_, ?_⟩ <;>
    simp [nodeSubsSymmetric, noEmptySets, nodupVals, NodeSubscriptionState.empty,
      AMap.empty, AMap.get?, AMap.keys, getSet]

theorem foldl_applyNodeSubOp_WF (ops : List NodeSubOp) (st : NodeSubscriptionState)
    (h : NodeSubWF st) : NodeSubWF (ops.foldl applyNodeSubOp st) := by
  induction ops generalizing st with
  | nil => exact h
  | cons op ops' ih =>
    rw [List.foldl_cons]
    exact ih _ (applyNodeSubOp_WF st op h)

/-- **C8.** After any sequence of subscribe, unsubscribe and unsubscribeAll
operations starting from the empty manager, the two maps are symmetric — a
session is in a node's subscriber set exactly when the node is in the
session's subscription set — and neither map holds a key whose set is
empty. -/
theorem nodeSubscriptions_symmetric (ops : List NodeSubOp) :
    (∀ n s, s ∈ getSet (runNodeSubOps ops).nodeSubscriptions n ↔
      n ∈ getSet (runNodeSubOps ops).sessionSubscribers s) ∧
    (∀ k l, AMap.get? (runNodeSubOps ops).nodeSubscriptions k = some l →
      l ≠ []) ∧
    (∀ k l, AMap.get? (runNodeSubOps ops).sessionSubscribers k = some l →
      l ≠ []) := by
  obtain ⟨hsym, hne1, hne2, -, -, -, -⟩ :=
    foldl_applyNodeSubOp_WF ops NodeSubscriptionState.empty NodeSubWF_empty
  exact ⟨hsym, hne1, hne2⟩

/-! ### C6: generation-based lane reset safety -/

namespace AMap

theorem get?_map_val {α β : Type} (m : AMap α) (f : α → β) (k : String) :
    get? (m.map (fun kl => (kl.1, f kl.2))) k = (get? m k).map f := by
  induction m with
  | nil => rfl
  | cons hd tl ih =>
    obtain ⟨k₀, v₀⟩ := hd
    by_cases h₀ : k₀ = k
    · simp [get?, h₀]
    · simp [get?, h₀, ih]

theorem get?_of_mem_nodup {α : Type} (m : AMap α) (k : String) (v : α)
    (hmem : (k, v) ∈ m) (hnd : m.keys.Nodup) : m.get? k = some v := by
  induction m with
  | nil => cases hmem
  | cons hd tl ih =>
    obtain ⟨k₀, v₀⟩ := hd
    simp only [keys, List.map_cons, List.nodup_cons] at hnd
    rcases List.mem_cons.mp hmem with heq | htl
    · cases heq
      simp [get?]
    · have hk₀ : k₀ ≠ k := by
        intro he
        subst he
        exact hnd.1 (List.mem_map.mpr ⟨(k₀, v), htl, rfl⟩)
      simp only [get?, if_neg hk₀]
      exact ih htl hnd.2

theorem keys_map_val {α β : Type} (m : AMap α) (f : α → β) :
    keys (m.map (fun kl => (kl.1, f kl.2))) = keys m := by
  unfold keys
  rw [List.map_map]
  rfl

end AMap

namespace CmdQueueB

/-- Characterisation of the `pump` loop: with `k` entries startable, the
first `k` queued entries are started, receiving consecutive task ids and the
snapshotted generation. -/
theorem pumpB_spec (q : List Nat) (ids : List Nat) (maxC tid gen : Nat) :
    (pumpB q ids maxC tid gen).queue =
      q.drop (min q.length (maxC - ids.length)) ∧
    (pumpB q ids maxC tid gen).activeTaskIds.length =
      ids.length + min q.length (maxC - ids.length) ∧
    (pumpB q ids maxC tid gen).startedIds =
      q.take (min q.length (maxC - ids.length)) ∧
    (pumpB q ids maxC tid gen).newRunning.map (fun t => t.entryId) =
      q.take (min q.length (maxC - ids.length)) ∧
    (∀ t ∈ (pumpB q ids maxC tid gen).newRunning, t.generation = gen) ∧
    (pumpB q ids maxC tid gen).nextTaskId =
      tid + min q.length (maxC - ids.length) := by
  induction q generalizing ids tid with
  | nil => simp [pumpB]
  | cons e rest ih =>
    by_cases hcap : ids.length < maxC
    · have hk : min (e :: rest).length (maxC - ids.length) =
          min rest.length (maxC - (ids ++ [tid]).length) + 1 := by
        simp only [List.length_cons, List.length_append, List.length_singleton,
          List.length_nil]
        omega
      obtain ⟨ih1, ih2, ih3, ih4, ih5, ih6⟩ := ih (ids ++ [tid]) (tid + 1)
      refine ⟨?_, ?_, ?_, ?_, ?_, ?_⟩
      · simp only [pumpB, if_pos hcap, hk, List.drop_succ_cons]
        exact ih1
      · simp only [pumpB, if_pos hcap, hk]
        rw [ih2]
        simp only [List.length_append, List.length_singleton, List.length_cons,
          List.length_nil]
        omega
      · simp only [pumpB, if_pos hcap, hk, List.take_succ_cons]
        rw [ih3]
      · simp only [pumpB, if_pos hcap, hk, List.take_succ_cons, List.map_cons]
        rw [ih4]
      · intro t ht
        simp only [pumpB, if_pos hcap, List.mem_cons] at ht
        rcases ht with rfl | ht
        · rfl
        · exact ih5 t ht
      · simp only [pumpB, if_pos hcap, hk]
        rw [ih6]
        omega
    · have hk : min (e :: rest).length (maxC - ids.length) = 0 := by
        simp only [List.length_cons]
        omega
      rw [hk]
      simp [pumpB, if_neg hcap]

/-- `drainLane` leaves every other lane untouched. -/
theorem drainLaneB_lanes_get?_ne (st : StateB) (a lane : String) (h : a ≠ lane) :
    AMap.get? (drainLaneB st a).lanes lane = AMap.get? st.lanes lane := by
  unfold drainLaneB
  by_cases hd : ((AMap.get? st.lanes a).getD LaneB.init).draining
  · rw [if_pos hd]
    exact AMap.get?_set_ne _ _ _ _ h
  · rw [if_neg hd]
    unfold pumpLaneB
    exact AMap.get?_set_ne _ _ _ _ h

theorem foldl_drainLaneB_get?_not_mem (L : List String) (st : StateB)
    (lane : String) (h : lane ∉ L) :
    AMap.get? (L.foldl drainLaneB st).lanes lane = AMap.get? st.lanes lane := by
  induction L generalizing st with
  | nil => rfl
  | cons a L' ih =>
    simp only [List.mem_cons, not_or] at h
    rw [List.foldl_cons, ih _ h.2]
    exact drainLaneB_lanes_get?_ne st a lane (fun hh => h.1 hh.symm)

end CmdQueueB

namespace CmdQueueB

theorem foldl_drainLaneB_get?_mem (L : List String) (st : StateB)
    (lane : String) (l : LaneB) (hmem : lane ∈ L) (hnd : L.Nodup)
    (hl : AMap.get? st.lanes lane = some l) (hdr : l.draining = false) :
    ∃ l', AMap.get? ((L.foldl drainLaneB st).lanes) lane = some l' ∧
      l'.queue = l.queue.drop
        (min l.queue.length (l.maxConcurrent - l.activeTaskIds.length)) ∧
      l'.activeTaskIds.length = l.activeTaskIds.length +
        min l.queue.length (l.maxConcurrent - l.activeTaskIds.length) ∧
      l'.generation = l.generation ∧
      l'.maxConcurrent = l.maxConcurrent ∧
      ∃ nr, l'.running = l.running ++ nr ∧
        nr.map (fun t => t.entryId) = l.queue.take
          (min l.queue.length (l.maxConcurrent - l.activeTaskIds.length)) ∧
        (∀ t ∈ nr, t.generation = l.generation) := by
  induction L generalizing st with
  | nil => cases hmem
  | cons a L' ih =>
    rw [List.nodup_cons] at hnd
    rw [List.foldl_cons]
    by_cases ha : a = lane
    · subst ha
      have hstep : drainLaneB st a = pumpLaneB st a := by
        unfold drainLaneB
        rw [hl]
        simp [hdr]
      have hnot : a ∉ L' := hnd.1
      rw [hstep]
      have hget : AMap.get? ((L'.foldl drainLaneB (pumpLaneB st a)).lanes) a =
          AMap.get? (pumpLaneB st a).lanes a :=
        foldl_drainLaneB_get?_not_mem L' _ a hnot
      obtain ⟨p1, p2, p3, p4, p5, p6⟩ := pumpB_spec l.queue l.activeTaskIds
        l.maxConcurrent st.nextTaskId l.generation
      set P := pumpB l.queue l.activeTaskIds l.maxConcurrent st.nextTaskId
        l.generation with hP
      refine ⟨{ l with
          queue := P.queue
          activeTaskIds := P.activeTaskIds
          running := l.running ++ P.newRunning }, ?_, p1, p2, rfl, rfl,
        P.newRunning, rfl, p4, p5⟩
      rw [hget]
      unfold pumpLaneB
      rw [hl]
      simp only [Option.getD_some]
      exact AMap.get?_set_self _ _ _
    · have hne : AMap.get? (drainLaneB st a).lanes lane = some l := by
        rw [drainLaneB_lanes_get?_ne st a lane ha]
        exact hl
      have hmem' : lane ∈ L' := by
        rcases List.mem_cons.mp hmem with he | hm
        · exact (ha he.symm).elim
        · exact hm
      exact ih _ hmem' hnd.2 hne

theorem resetAllLanes_spec (st : StateB) (lane : String) (l : LaneB)
    (hl : AMap.get? st.lanes lane = some l)
    (hknd : (AMap.keys st.lanes).Nodup) :
    ∃ l', AMap.get? (resetAllLanes st).lanes lane = some l' ∧
      l'.generation = l.generation + 1 ∧
      l'.maxConcurrent = l.maxConcurrent ∧
      l'.queue = l.queue.drop (min l.queue.length l.maxConcurrent) ∧
      l'.activeTaskIds.length = min l.queue.length l.maxConcurrent ∧
      (∃ nr, l'.running = l.running ++ nr ∧
        nr.map (fun t => t.entryId) =
          l.queue.take (min l.queue.length l.maxConcurrent) ∧
        (∀ t ∈ nr, t.generation = l.generation + 1)) := by
  have hmap : AMap.get?
      (st.lanes.map (fun kl => (kl.1, resetLane kl.2))) lane =
      some (resetLane l) := by
    rw [AMap.get?_map_val, hl]
    rfl
  by_cases hq : l.queue = []
  · have hnotL : lane ∉ (st.lanes.filter (fun kl => !kl.2.queue.isEmpty)).map
        Prod.fst := by
      intro hin
      obtain ⟨kl, hklmem, hklfst⟩ := List.mem_map.mp hin
      have hklm := List.mem_of_mem_filter hklmem
      have hfl := List.of_mem_filter hklmem
      obtain ⟨k0, v0⟩ := kl
      cases hklfst
      have := AMap.get?_of_mem_nodup st.lanes k0 v0 hklm hknd
      rw [hl] at this
      cases this
      simp [hq] at hfl
    unfold resetAllLanes
    rw [foldl_drainLaneB_get?_not_mem _ _ _ hnotL]
    refine ⟨resetLane l, hmap, rfl, rfl, ?_, ?_, [], ?_, ?_, ?_⟩
    · simp [resetLane, hq]
    · simp [resetLane, hq]
    · simp [resetLane]
    · simp [hq]
    · simp
  · have hmemL : lane ∈ (st.lanes.filter (fun kl => !kl.2.queue.isEmpty)).map
        Prod.fst := by
      refine List.mem_map.mpr ⟨(lane, l), ?_, rfl⟩
      refine List.mem_filter.mpr ⟨AMap.mem_of_get? _ _ _ hl, ?_⟩
      simp [hq]
    have hndL : ((st.lanes.filter (fun kl => !kl.2.queue.isEmpty)).map
        Prod.fst).Nodup := by
      have hsub : ((st.lanes.filter (fun kl => !kl.2.queue.isEmpty)).map
          Prod.fst).Sublist (st.lanes.map Prod.fst) :=
        (List.filter_sublist _).map Prod.fst
      exact hsub.nodup hknd
    have hmap' : AMap.get?
        ({ st with lanes := st.lanes.map (fun kl => (kl.1, resetLane kl.2)) }
          : StateB).lanes lane = some (resetLane l) := hmap
    obtain ⟨l', hget, hq', hact, hgen, hmaxc, nr, hrun, hnr, hnrg⟩ :=
      foldl_drainLaneB_get?_mem _ _ lane (resetLane l) hmemL hndL hmap' rfl
    refine ⟨l', hget, ?_, ?_, ?_, ?_, nr, ?_, ?_, ?_⟩
    · rw [hgen]
      rfl
    · rw [hmaxc]
      rfl
    · rw [hq']
      simp [resetLane]
    · rw [hact]
      simp [resetLane]
    · rw [hrun]
      rfl
    · rw [hnr]
      simp [resetLane]
    · intro t ht
      rw [hnrg t ht]
      rfl

theorem stepB_done_stale (st : StateB) (lane : String) (l : LaneB)
    (r : RunningTask) (e : Nat) (res : TaskRes)
    (hl : AMap.get? st.lanes lane = some l)
    (hfind : l.running.find? (fun t => t.entryId = e) = some r)
    (hgen : r.generation ≠ l.generation) :
    (stepB st (.done lane e res)).started = st.started ∧
    (stepB st (.done lane e res)).settled = st.settled ++ [(lane, e, res)] ∧
    ∃ l'', AMap.get? (stepB st (.done lane e res)).lanes lane = some l'' ∧
      l''.activeTaskIds = l.activeTaskIds ∧ l''.queue = l.queue := by
  have hstep : stepB st (.done lane e res) =
      { st with
        lanes := AMap.set st.lanes lane { l with running := removeFirstEntry l.running e }
        settled := st.settled ++ [(lane, e, res)] } := by
    simp [stepB, hl, hfind, completeTask, hgen]
  rw [hstep]
  exact ⟨rfl, rfl, _, AMap.get?_set_self _ _ _, rfl, rfl⟩

end CmdQueueB

/-- **C6.** After `resetAllLanes()` bumps a lane's generation and clears its
active-task set, entries queued before the reset are preserved and drained
immediately after the reset pass (the first `min(queue, maxConcurrent)`
entries are started into the fresh active set, the rest stay queued), and
the completion callback of any task started under an earlier generation
neither removes a task id from the current active set nor triggers a
further drain: the active ids, the queue and the start trace are unchanged
by its `done` event. -/
theorem resetAllLanes_generation_safety (st : CmdQueueB.StateB) (lane : String)
    (l : CmdQueueB.LaneB)
    (hl : AMap.get? st.lanes lane = some l)
    (hknd : (AMap.keys st.lanes).Nodup)
    (hrg : ∀ r ∈ l.running, r.generation ≤ l.generation) :
    ∃ l', AMap.get? (CmdQueueB.resetAllLanes st).lanes lane = some l' ∧
      l'.generation = l.generation + 1 ∧
      l'.queue = l.queue.drop (min l.queue.length l.maxConcurrent) ∧
      l'.activeTaskIds.length = min l.queue.length l.maxConcurrent ∧
      (∃ nr, l'.running = l.running ++ nr ∧
        nr.map (fun t => t.entryId) =
          l.queue.take (min l.queue.length l.maxConcurrent) ∧
        (∀ t ∈ nr, t.generation = l.generation + 1)) ∧
      (∀ r e res, r ∈ l.running →
        l'.running.find? (fun t => t.entryId = e) = some r →
        (CmdQueueB.stepB (CmdQueueB.resetAllLanes st) (.done lane e res)).started =
          (CmdQueueB.resetAllLanes st).started ∧
        ∃ l'', AMap.get?
            (CmdQueueB.stepB (CmdQueueB.resetAllLanes st) (.done lane e res)).lanes
              lane = some l'' ∧
          l''.activeTaskIds = l'.activeTaskIds ∧ l''.queue = l'.queue) := by
  obtain ⟨l', hget, hgen, hmaxc, hq, hact, hnr⟩ :=
    CmdQueueB.resetAllLanes_spec st lane l hl hknd
  refine ⟨l', hget, hgen, hq, hact, hnr, ?_⟩
  intro r e res hrmem hfind
  have hstale : r.generation ≠ l'.generation := by
    have hle := hrg r hrmem
    rw [hgen]
    omega
  obtain ⟨hstart, hsettle, l'', hget'', hact'', hq''⟩ :=
    CmdQueueB.stepB_done_stale (CmdQueueB.resetAllLanes st) lane l' r e res
      hget hfind hstale
  exact ⟨hstart, l'', hget'', hact'', hq''⟩

/-- **C6 witness.** The concrete one-lane state: one running task of the old
generation, two queued entries, concurrency 1. -/
theorem resetAllLanes_generation_safety_witness :
    ∃ l', AMap.get? (CmdQueueB.resetAllLanes sampleStateB).lanes "main" = some l' ∧
      l'.generation = sampleLaneB.generation + 1 ∧
      l'.queue = sampleLaneB.queue.drop
        (min sampleLaneB.queue.length sampleLaneB.maxConcurrent) ∧
      l'.activeTaskIds.length =
        min sampleLaneB.queue.length sampleLaneB.maxConcurrent ∧
      (∃ nr, l'.running = sampleLaneB.running ++ nr ∧
        nr.map (fun t => t.entryId) = sampleLaneB.queue.take
          (min sampleLaneB.queue.length sampleLaneB.maxConcurrent) ∧
        (∀ t ∈ nr, t.generation = sampleLaneB.generation + 1)) ∧
      (∀ r e res, r ∈ sampleLaneB.running →
        l'.running.find? (fun t => t.entryId = e) = some r →
        (CmdQueueB.stepB (CmdQueueB.resetAllLanes sampleStateB)
            (.done "main" e res)).started =
          (CmdQueueB.resetAllLanes sampleStateB).started ∧
        ∃ l'', AMap.get?
            (CmdQueueB.stepB (CmdQueueB.resetAllLanes sampleStateB)
              (.done "main" e res)).lanes "main" = some l'' ∧
          l''.activeTaskIds = l'.activeTaskIds ∧ l''.queue = l'.queue) :=
  resetAllLanes_generation_safety sampleStateB "main" sampleLaneB
    (by decide) (by decide) (by decide)

/-! ### C10: equivalence of the two lane-queue implementations -/

theorem pumpA_spec (q : List Nat) (a maxC : Nat) :
    (CmdQueueA.pumpA q a maxC).1 = q.drop (min q.length (maxC - a)) ∧
    (CmdQueueA.pumpA q a maxC).2.1 = a + min q.length (maxC - a) ∧
    (CmdQueueA.pumpA q a maxC).2.2 = q.take (min q.length (maxC - a)) := by
  induction q generalizing a with
  | nil => simp [CmdQueueA.pumpA]
  | cons e rest ih =>
    by_cases hcap : a < maxC
    · have hk : min (e :: rest).length (maxC - a) =
          min rest.length (maxC - (a + 1)) + 1 := by
        simp only [List.length_cons]
        omega
      obtain ⟨ih1, ih2, ih3⟩ := ih (a + 1)
      refine ⟨?_, ?_, ?_⟩
      · simp only [CmdQueueA.pumpA, if_pos hcap, hk, List.drop_succ_cons]
        exact ih1
      · simp only [CmdQueueA.pumpA, if_pos hcap, hk]
        rw [ih2]
        omega
      · simp only [CmdQueueA.pumpA, if_pos hcap, hk, List.take_succ_cons]
        rw [ih3]
    · have hk : min (e :: rest).length (maxC - a) = 0 := by
        simp only [List.length_cons]
        omega
      rw [hk]
      simp [CmdQueueA.pumpA, if_neg hcap]

theorem pumpB_activeIds (q ids : List Nat) (maxC tid gen : Nat) :
    (CmdQueueB.pumpB q ids maxC tid gen).activeTaskIds =
      ids ++ (CmdQueueB.pumpB q ids maxC tid gen).newRunning.map
        (fun t => t.taskId) := by
  induction q generalizing ids tid with
  | nil => simp [CmdQueueB.pumpB]
  | cons e rest ih =>
    by_cases hcap : ids.length < maxC
    · simp only [CmdQueueB.pumpB, if_pos hcap, List.map_cons]
      rw [ih (ids ++ [tid]) (tid + 1)]
      simp
    · simp [CmdQueueB.pumpB, if_neg hcap]

theorem pumpB_taskIds_range (q ids : List Nat) (maxC tid gen : Nat) :
    (CmdQueueB.pumpB q ids maxC tid gen).newRunning.map (fun t => t.taskId) =
      List.range' tid (min q.length (maxC - ids.length)) := by
  induction q generalizing ids tid with
  | nil => simp [CmdQueueB.pumpB]
  | cons e rest ih =>
    by_cases hcap : ids.length < maxC
    · have hk : min (e :: rest).length (maxC - ids.length) =
          min rest.length (maxC - (ids ++ [tid]).length) + 1 := by
        simp only [List.length_cons, List.length_append, List.length_singleton,
          List.length_nil]
        omega
      simp only [CmdQueueB.pumpB, if_pos hcap, hk, List.map_cons]
      rw [ih (ids ++ [tid]) (tid + 1)]
      rw [List.range'_succ]
    · have hk : min (e :: rest).length (maxC - ids.length) = 0 := by
        simp only [List.length_cons]
        omega
      rw [hk]
      simp [CmdQueueB.pumpB, if_neg hcap]

theorem removeFirstEntry_map_entryId (L : List CmdQueueB.RunningTask) (e : Nat) :
    (CmdQueueB.removeFirstEntry L e).map (fun t => t.entryId) =
      (L.map (fun t => t.entryId)).erase e := by
  induction L with
  | nil => rfl
  | cons r rest ih =>
    by_cases hr : r.entryId = e
    · simp only [CmdQueueB.removeFirstEntry, if_pos hr, List.map_cons]
      rw [hr, List.erase_cons_head]
    · simp only [CmdQueueB.removeFirstEntry, if_neg hr, List.map_cons]
      rw [List.erase_cons_tail, ih]
      simp [hr]

theorem removeFirstEntry_sublist (L : List CmdQueueB.RunningTask) (e : Nat) :
    (CmdQueueB.removeFirstEntry L e).Sublist L := by
  induction L with
  | nil => exact List.Sublist.refl _
  | cons r rest ih =>
    by_cases hr : r.entryId = e
    · simp only [CmdQueueB.removeFirstEntry, if_pos hr]
      exact List.sublist_cons_of_sublist _ (List.Sublist.refl _)
    · simp only [CmdQueueB.removeFirstEntry, if_neg hr]
      exact List.Sublist.cons₂ _ ih

theorem find?_entry_mem (L : List CmdQueueB.RunningTask) (e : Nat)
    (r : CmdQueueB.RunningTask)
    (h : L.find? (fun t => t.entryId = e) = some r) :
    r ∈ L ∧ r.entryId = e := by
  refine ⟨List.mem_of_find?_eq_some h, ?_⟩
  have := List.find?_some h
  simpa using this

theorem find?_entry_none_iff (L : List CmdQueueB.RunningTask) (e : Nat) :
    L.find? (fun t => t.entryId = e) = none ↔
      e ∉ L.map (fun t => t.entryId) := by
  rw [List.find?_eq_none]
  constructor
  · intro h hmem
    obtain ⟨t, htm, hte⟩ := List.mem_map.mp hmem
    exact absurd (by simpa using hte) (by simpa using h t htm)
  · intro h t htm
    simp only [decide_eq_true_eq]
    intro hte
    exact h (List.mem_map.mpr ⟨t, htm, hte⟩)

theorem removeFirstEntry_map_taskId (L : List CmdQueueB.RunningTask) (e : Nat)
    (r : CmdQueueB.RunningTask)
    (hfind : L.find? (fun t => t.entryId = e) = some r)
    (hnd : (L.map (fun t => t.taskId)).Nodup) :
    (CmdQueueB.removeFirstEntry L e).map (fun t => t.taskId) =
      (L.map (fun t => t.taskId)).erase r.taskId := by
  induction L with
  | nil => cases hfind
  | cons r0 rest ih =>
    by_cases hr : r0.entryId = e
    · have : r0 = r := by
        rw [List.find?_cons_of_pos] at hfind
        · exact Option.some.inj hfind
        · simpa using hr
      subst this
      simp only [CmdQueueB.removeFirstEntry, if_pos hr, List.map_cons]
      rw [List.erase_cons_head]
    · rw [List.find?_cons_of_neg] at hfind
      · simp only [List.map_cons, List.nodup_cons] at hnd
        have hrmem : r ∈ rest := (find?_entry_mem rest e r hfind).1
        have hrt : r.taskId ∈ rest.map (fun t => t.taskId) :=
          List.mem_map.mpr ⟨r, hrmem, rfl⟩
        have hne : r0.taskId ≠ r.taskId := by
          intro hh
          rw [hh] at hnd
          exact hnd.1 hrt
        simp only [CmdQueueB.removeFirstEntry, if_neg hr, List.map_cons]
        rw [List.erase_cons_tail, ih hfind hnd.2]
        simp [hne]
      · simpa using hr

theorem mem_AMap_set {α : Type} (m : AMap α) (k : String) (v : α)
    (kl : String × α) (h : kl ∈ AMap.set m k v) : kl = (k, v) ∨ kl ∈ m := by
  induction m with
  | nil =>
    simp only [AMap.set, List.mem_singleton] at h
    exact Or.inl h
  | cons hd tl ih =>
    obtain ⟨k₀, v₀⟩ := hd
    by_cases h₀ : k₀ = k
    · subst h₀
      have h' : kl ∈ (k₀, v) :: tl := by
        simpa [AMap.set] using h
      rcases List.mem_cons.mp h' with he | hm
      · exact Or.inl he
      · exact Or.inr (List.mem_cons_of_mem _ hm)
    · have h' : kl ∈ (k₀, v₀) :: AMap.set tl k v := by
        simpa [AMap.set, h₀] using h
      rcases List.mem_cons.mp h' with he | hm
      · exact Or.inr (he ▸ List.mem_cons_self _ _)
      · rcases ih hm with he' | hm'
        · exact Or.inl he'
        · exact Or.inr (List.mem_cons_of_mem _ hm')

theorem lanesRel_get? (ma : AMap CmdQueueA.LaneA) (mb : AMap CmdQueueB.LaneB)
    (h : LanesRel ma mb) (k : String) :
    (AMap.get? ma k = none ∧ AMap.get? mb k = none) ∨
    (∃ la lb, AMap.get? ma k = some la ∧ AMap.get? mb k = some lb ∧
      RLane la lb) := by
  induction h with
  | nil => exact Or.inl ⟨rfl, rfl⟩
  | cons hab hrest ih =>
    rename_i a b la lb
    obtain ⟨hk, hr⟩ := hab
    obtain ⟨ka, va⟩ := a
    obtain ⟨kb, vb⟩ := b
    simp only at hk hr
    subst hk
    by_cases hkk : ka = k
    · subst hkk
      exact Or.inr ⟨va, vb, by simp [AMap.get?], by simp [AMap.get?], hr⟩
    · simp only [AMap.get?, if_neg hkk]
      exact ih

theorem lanesRel_set (ma : AMap CmdQueueA.LaneA) (mb : AMap CmdQueueB.LaneB)
    (h : LanesRel ma mb) (k : String) (la : CmdQueueA.LaneA)
    (lb : CmdQueueB.LaneB) (hr : RLane la lb) :
    LanesRel (AMap.set ma k la) (AMap.set mb k lb) := by
  induction h with
  | nil => exact List.Forall₂.cons ⟨rfl, hr⟩ List.Forall₂.nil
  | cons hab hrest ih =>
    rename_i a b ta tb
    obtain ⟨hk, hvr⟩ := hab
    obtain ⟨ka, va⟩ := a
    obtain ⟨kb, vb⟩ := b
    simp only at hk hvr
    subst hk
    by_cases hkk : ka = k
    · subst hkk
      simp only [AMap.set, if_pos rfl]
      exact List.Forall₂.cons ⟨rfl, hr⟩ hrest
    · simp only [AMap.set, if_neg hkk]
      exact List.Forall₂.cons ⟨rfl, hvr⟩ ih

theorem RLane_init : RLane CmdQueueA.LaneA.init CmdQueueB.LaneB.init := by
  refine ⟨rfl, rfl, rfl, rfl, rfl⟩

theorem IBLane_init (ntid : Nat) : IBLane CmdQueueB.LaneB.init ntid := by
  refine ⟨rfl, rfl, ?_, ?_, ?_⟩ <;> simp [CmdQueueB.LaneB.init]

theorem IBLane_mono (b : CmdQueueB.LaneB) (n n' : Nat) (h : IBLane b n)
    (hle : n ≤ n') : IBLane b n' := by
  obtain ⟨h1, h2, h3, h4, h5⟩ := h
  refine ⟨h1, h2, h3, ?_, h5⟩
  intro t ht
  exact Nat.lt_of_lt_of_le (h4 t ht) hle

theorem pumpLaneAB (sa : CmdQueueA.StateA) (sb : CmdQueueB.StateB) (k : String)
    (h : RState sa sb) :
    RState (CmdQueueA.pumpLaneA sa k) (CmdQueueB.pumpLaneB sb k) := by
  obtain ⟨hlr, hnid, hstart, hsettle, hinv⟩ := h
  have hla : ∃ la lb, (AMap.get? sa.lanes k).getD CmdQueueA.LaneA.init = la ∧
      (AMap.get? sb.lanes k).getD CmdQueueB.LaneB.init = lb ∧ RLane la lb ∧
      IBLane lb sb.nextTaskId := by
    rcases lanesRel_get? _ _ hlr k with ⟨hna, hnb⟩ | ⟨la, lb, hga, hgb, hr⟩
    · exact ⟨_, _, by rw [hna]; rfl, by rw [hnb]; rfl, RLane_init,
        IBLane_init _⟩
    · exact ⟨la, lb, by rw [hga]; rfl, by rw [hgb]; rfl, hr,
        hinv (k, lb) (AMap.mem_of_get? _ _ _ hgb)⟩
  obtain ⟨la, lb, hda, hdb, hr, hib⟩ := hla
  obtain ⟨hq, hmc, hdr, hac, hrun⟩ := hr
  obtain ⟨hids, hgen0, hrgen, hrbound, hrnd⟩ := hib
  obtain ⟨a1, a2, a3⟩ := pumpA_spec la.queue la.active la.maxConcurrent
  obtain ⟨b1, b2, b3, b4, b5, b6⟩ := CmdQueueB.pumpB_spec lb.queue
    lb.activeTaskIds lb.maxConcurrent sb.nextTaskId lb.generation
  have hstartedEq : (CmdQueueA.pumpA la.queue la.active la.maxConcurrent).2.2 =
      (CmdQueueB.pumpB lb.queue lb.activeTaskIds lb.maxConcurrent sb.nextTaskId
        lb.generation).startedIds := by
    rw [a3, b3, hq, hmc, hac]
  have htaskRange := pumpB_taskIds_range lb.queue lb.activeTaskIds
    lb.maxConcurrent sb.nextTaskId lb.generation
  have hactIds := pumpB_activeIds lb.queue lb.activeTaskIds lb.maxConcurrent
    sb.nextTaskId lb.generation
  simp only [CmdQueueA.pumpLaneA, CmdQueueB.pumpLaneB, hda, hdb]
  refine ⟨?_, hnid, ?_, hsettle, ?_⟩
  · apply lanesRel_set _ _ hlr
    refine ⟨?_, ?_, hdr, ?_, ?_⟩
    · simp only
      rw [a1, b1, hq, hmc, hac]
    · simp only
      exact hmc
    · simp only
      rw [a2, b2, hq, hmc, hac]
    · simp only
      rw [List.map_append, hrun, hstartedEq, b3, b4]
  · simp only
    rw [hstart, hstartedEq]
  · intro kl hkl
    rcases mem_AMap_set _ _ _ _ hkl with he | hm
    · subst he
      refine ⟨?_, hgen0, ?_, ?_, ?_⟩
      · simp only
        rw [hactIds, hids, ← List.map_append]
      · intro t ht
        simp only at ht
        rcases List.mem_append.mp ht with hold | hnew
        · exact hrgen t hold
        · rw [b5 t hnew, hgen0]
      · intro t ht
        simp only at ht
        show t.taskId < (CmdQueueB.pumpB lb.queue lb.activeTaskIds
          lb.maxConcurrent sb.nextTaskId lb.generation).nextTaskId
        rw [b6]
        rcases List.mem_append.mp ht with hold | hnew
        · have := hrbound t hold
          omega
        · have htid : t.taskId ∈ (CmdQueueB.pumpB lb.queue lb.activeTaskIds
              lb.maxConcurrent sb.nextTaskId lb.generation).newRunning.map
                (fun t => t.taskId) :=
            List.mem_map.mpr ⟨t, hnew, rfl⟩
          rw [htaskRange] at htid
          have := List.mem_range'_1.mp htid
          omega
      · simp only
        rw [List.map_append, htaskRange]
        rw [List.nodup_append]
        refine ⟨hrnd, (List.pairwise_lt_range' _ _ 1 (by omega)).imp
          (fun hlt => Nat.ne_of_lt hlt), ?_⟩
        intro x hx hy
        obtain ⟨t, htm, hte⟩ := List.mem_map.mp hx
        have hxlt : x < sb.nextTaskId := hte ▸ hrbound t htm
        have hyge := (List.mem_range'_1.mp hy).1
        omega
    · have hold := hinv kl hm
      refine IBLane_mono _ _ _ hold ?_
      show sb.nextTaskId ≤ (CmdQueueB.pumpB lb.queue lb.activeTaskIds
        lb.maxConcurrent sb.nextTaskId lb.generation).nextTaskId
      rw [b6]
      omega

theorem drainLaneAB (sa : CmdQueueA.StateA) (sb : CmdQueueB.StateB) (k : String)
    (h : RState sa sb) :
    RState (CmdQueueA.drainLaneA sa k) (CmdQueueB.drainLaneB sb k) := by
  obtain ⟨hlr, hnid, hstart, hsettle, hinv⟩ := h
  have hla : ∃ la lb, (AMap.get? sa.lanes k).getD CmdQueueA.LaneA.init = la ∧
      (AMap.get? sb.lanes k).getD CmdQueueB.LaneB.init = lb ∧ RLane la lb ∧
      IBLane lb sb.nextTaskId := by
    rcases lanesRel_get? _ _ hlr k with ⟨hna, hnb⟩ | ⟨la, lb, hga, hgb, hr⟩
    · exact ⟨_, _, by rw [hna]; rfl, by rw [hnb]; rfl, RLane_init,
        IBLane_init _⟩
    · exact ⟨la, lb, by rw [hga]; rfl, by rw [hgb]; rfl, hr,
        hinv (k, lb) (AMap.mem_of_get? _ _ _ hgb)⟩
  obtain ⟨la, lb, hda, hdb, hr, hib⟩ := hla
  have hdr := hr.2.2.1
  by_cases hdrain : lb.draining
  · have hdra : la.draining = true := by rw [hdr, hdrain]
    have hA : CmdQueueA.drainLaneA sa k =
        { sa with lanes := AMap.set sa.lanes k la } := by
      simp [CmdQueueA.drainLaneA, hda, hdra]
    have hB : CmdQueueB.drainLaneB sb k =
        { sb with lanes := AMap.set sb.lanes k lb } := by
      simp [CmdQueueB.drainLaneB, hdb, hdrain]
    rw [hA, hB]
    refine ⟨lanesRel_set _ _ hlr k la lb hr, hnid, hstart, hsettle, ?_⟩
    intro kl hkl
    rcases mem_AMap_set _ _ _ _ hkl with he | hm
    · subst he
      exact hib
    · exact hinv kl hm
  · have hdra : la.draining = false := by
      rw [hdr]
      simpa using hdrain
    have hA : CmdQueueA.drainLaneA sa k = CmdQueueA.pumpLaneA sa k := by
      simp [CmdQueueA.drainLaneA, hda, hdra]
    have hB : CmdQueueB.drainLaneB sb k = CmdQueueB.pumpLaneB sb k := by
      simp [CmdQueueB.drainLaneB, hdb, hdrain]
    rw [hA, hB]
    exact pumpLaneAB sa sb k ⟨hlr, hnid, hstart, hsettle, hinv⟩

theorem RState_init : RState CmdQueueA.StateA.init CmdQueueB.StateB.init := by
  refine ⟨List.Forall₂.nil, rfl, rfl, rfl, ?_⟩
  intro kl hkl
  cases hkl

theorem rstate_lane_pair (sa : CmdQueueA.StateA) (sb : CmdQueueB.StateB)
    (h : RState sa sb) (k : String) :
    ∃ la lb, (AMap.get? sa.lanes k).getD CmdQueueA.LaneA.init = la ∧
      (AMap.get? sb.lanes k).getD CmdQueueB.LaneB.init = lb ∧ RLane la lb ∧
      IBLane lb sb.nextTaskId := by
  obtain ⟨hlr, _, _, _, hinv⟩ := h
  rcases lanesRel_get? _ _ hlr k with ⟨hna, hnb⟩ | ⟨la, lb, hga, hgb, hr⟩
  · exact ⟨_, _, by rw [hna]; rfl, by rw [hnb]; rfl, RLane_init, IBLane_init _⟩
  · exact ⟨la, lb, by rw [hga]; rfl, by rw [hgb]; rfl, hr,
      hinv (k, lb) (AMap.mem_of_get? _ _ _ hgb)⟩

theorem stepAB (sa : CmdQueueA.StateA) (sb : CmdQueueB.StateB) (ev : LaneEvent)
    (h : RState sa sb) : RState (CmdQueueA.stepA sa ev) (CmdQueueB.stepB sb ev) := by
  obtain ⟨hlr, hnid, hstart, hsettle, hinv⟩ := h
  cases ev with
  | enq lane =>
    obtain ⟨la, lb, hda, hdb, hr, hib⟩ :=
      rstate_lane_pair sa sb ⟨hlr, hnid, hstart, hsettle, hinv⟩ (cleanLane lane)
    obtain ⟨hq, hmc, hdr, hact, hrun⟩ := hr
    simp only [CmdQueueA.stepA, CmdQueueB.stepB]
    rw [hda, hdb]
    have hmid : RState
        { sa with
          lanes := AMap.set sa.lanes (cleanLane lane)
            { la with queue := la.queue ++ [sa.nextEntryId] }
          nextEntryId := sa.nextEntryId + 1 }
        { sb with
          lanes := AMap.set sb.lanes (cleanLane lane)
            { lb with queue := lb.queue ++ [sb.nextEntryId] }
          nextEntryId := sb.nextEntryId + 1 } := by
      refine ⟨?_, ?_, hstart, hsettle, ?_⟩
      · refine lanesRel_set _ _ hlr _ _ _ ⟨?_, hmc, hdr, hact, hrun⟩
        simp only
        rw [hq, hnid]
      · simp only
        rw [hnid]
      · intro kl hkl
        rcases mem_AMap_set _ _ _ _ hkl with he | hm
        · subst he
          exact hib
        · exact hinv kl hm
    exact drainLaneAB _ _ _ hmid
  | setc lane n =>
    obtain ⟨la, lb, hda, hdb, hr, hib⟩ :=
      rstate_lane_pair sa sb ⟨hlr, hnid, hstart, hsettle, hinv⟩ (cleanLane lane)
    obtain ⟨hq, hmc, hdr, hact, hrun⟩ := hr
    simp only [CmdQueueA.stepA, CmdQueueB.stepB]
    rw [hda, hdb]
    have hmid : RState
        { sa with
          lanes := AMap.set sa.lanes (cleanLane lane)
            { la with maxConcurrent := (max 1 n).toNat } }
        { sb with
          lanes := AMap.set sb.lanes (cleanLane lane)
            { lb with maxConcurrent := (max 1 n).toNat } } := by
      refine ⟨?_, hnid, hstart, hsettle, ?_⟩
      · exact lanesRel_set _ _ hlr _ _ _ ⟨hq, rfl, hdr, hact, hrun⟩
      · intro kl hkl
        rcases mem_AMap_set _ _ _ _ hkl with he | hm
        · subst he
          exact hib
        · exact hinv kl hm
    exact drainLaneAB _ _ _ hmid
  | done lane e res =>
    simp only [CmdQueueA.stepA, CmdQueueB.stepB]
    rcases lanesRel_get? _ _ hlr lane with ⟨hna, hnb⟩ | ⟨la, lb, hga, hgb, hr⟩
    · rw [hna, hnb]
      exact ⟨hlr, hnid, hstart, hsettle, hinv⟩
    · obtain ⟨hq, hmc, hdr, hact, hrun⟩ := hr
      obtain ⟨hids, hgen0, hrgen, hrbound, hrnd⟩ :=
        hinv (lane, lb) (AMap.mem_of_get? _ _ _ hgb)
      simp only [hga, hgb]
      cases hfind : lb.running.find? (fun r => r.entryId = e) with
      | none =>
        have hne : e ∉ la.running := by
          rw [hrun]
          exact (find?_entry_none_iff lb.running e).mp hfind
        rw [if_neg hne]
        exact ⟨hlr, hnid, hstart, hsettle, hinv⟩
      | some r =>
        obtain ⟨hrm, hre⟩ := find?_entry_mem lb.running e r hfind
        have hmem : e ∈ la.running := by
          rw [hrun]
          exact List.mem_map.mpr ⟨r, hrm, hre⟩
        rw [if_pos hmem]
        have hgeq : r.generation = lb.generation := by
          rw [hrgen r hrm, hgen0]
        have hc : CmdQueueB.completeTask
            { lb with running := CmdQueueB.removeFirstEntry lb.running e }
            r.taskId r.generation =
            ({ lb with
               running := CmdQueueB.removeFirstEntry lb.running e
               activeTaskIds := lb.activeTaskIds.erase r.taskId }, true) := by
          simp [CmdQueueB.completeTask, hgeq]
        simp only [hc]
        have hibc : IBLane
            { lb with
              running := CmdQueueB.removeFirstEntry lb.running e
              activeTaskIds := lb.activeTaskIds.erase r.taskId }
            sb.nextTaskId := by
          refine ⟨?_, hgen0, ?_, ?_, ?_⟩
          · simp only
            rw [removeFirstEntry_map_taskId lb.running e r hfind hrnd, hids]
          · intro t ht
            exact hrgen t ((removeFirstEntry_sublist _ _).subset ht)
          · intro t ht
            exact hrbound t ((removeFirstEntry_sublist _ _).subset ht)
          · simp only
            exact hrnd.sublist ((removeFirstEntry_sublist _ _).map _)
        have hmid : RState
            { sa with
              lanes := AMap.set sa.lanes lane
                { la with
                  active := la.active - 1
                  running := la.running.erase e } }
            { sb with
              lanes := AMap.set sb.lanes lane
                { lb with
                  running := CmdQueueB.removeFirstEntry lb.running e
                  activeTaskIds := lb.activeTaskIds.erase r.taskId } } := by
          refine ⟨?_, hnid, hstart, hsettle, ?_⟩
          · refine lanesRel_set _ _ hlr _ _ _ ⟨hq, hmc, hdr, ?_, ?_⟩
            · have htid_mem : r.taskId ∈ lb.activeTaskIds := by
                rw [hids]
                exact List.mem_map.mpr ⟨r, hrm, rfl⟩
              simp only
              rw [List.length_erase_of_mem htid_mem, hact]
            · simp only
              rw [removeFirstEntry_map_entryId, hrun]
          · intro kl hkl
            rcases mem_AMap_set _ _ _ _ hkl with he' | hm
            · subst he'
              exact hibc
            · exact hinv kl hm
        have hpump := pumpLaneAB _ _ lane hmid
        exact ⟨hpump.1, hpump.2.1, hpump.2.2.1,
          congrArg (fun s => s ++ [(lane, e, res)]) hpump.2.2.2.1,
          hpump.2.2.2.2⟩

theorem runAB (events : List LaneEvent) :
    RState (CmdQueueA.runA events) (CmdQueueB.runB events) := by
  have hgen : ∀ (evs : List LaneEvent) (sa : CmdQueueA.StateA)
      (sb : CmdQueueB.StateB), RState sa sb →
      RState (evs.foldl CmdQueueA.stepA sa) (evs.foldl CmdQueueB.stepB sb) := by
    intro evs
    induction evs with
    | nil => intro sa sb h; exact h
    | cons ev rest ih =>
      intro sa sb h
      exact ih _ _ (stepAB sa sb ev h)
  exact hgen events _ _ RState_init

theorem getQueueSizeAB (sa : CmdQueueA.StateA) (sb : CmdQueueB.StateB)
    (h : LanesRel sa.lanes sb.lanes) (lane : String) :
    CmdQueueA.getQueueSizeA sa lane = CmdQueueB.getQueueSizeB sb lane := by
  unfold CmdQueueA.getQueueSizeA CmdQueueB.getQueueSizeB
  rcases lanesRel_get? _ _ h (cleanLane lane) with ⟨hna, hnb⟩ | ⟨la, lb, hga, hgb, hr⟩
  · rw [hna, hnb]
  · simp only [hga, hgb]
    rw [hr.1, hr.2.2.2.1]

theorem getTotalQueueSizeAB (sa : CmdQueueA.StateA) (sb : CmdQueueB.StateB)
    (h : LanesRel sa.lanes sb.lanes) :
    CmdQueueA.getTotalQueueSizeA sa = CmdQueueB.getTotalQueueSizeB sb := by
  unfold CmdQueueA.getTotalQueueSizeA CmdQueueB.getTotalQueueSizeB
  have hgen : ∀ (ma : AMap CmdQueueA.LaneA) (mb : AMap CmdQueueB.LaneB),
      LanesRel ma mb → ∀ acc : Nat,
      ma.foldl (fun acc kl => acc + kl.2.queue.length + kl.2.active) acc =
      mb.foldl (fun acc kl => acc + kl.2.queue.length + kl.2.activeTaskIds.length)
        acc := by
    intro ma mb hrel
    induction hrel with
    | nil => intro acc; rfl
    | cons hab hrest ih =>
      intro acc
      obtain ⟨-, hq, -, -, hact, -⟩ := hab
      simp only [List.foldl_cons]
      rw [hq, hact]
      exact ih _
  exact hgen _ _ h 0

/-- C10: for every sequence of enqueue and set-concurrency calls and task
completions (no `clearCommandLane`, no `resetAllLanes`), the two lane-queue
implementations — src/process/command-queue.ts and the part_002 variant —
are observationally equivalent: identical per-lane FIFO start order under
the concurrency cap, identical settlement traces, and identical
`getQueueSize`/`getTotalQueueSize` reports. -/
theorem commandQueue_equiv (events : List LaneEvent) :
    (CmdQueueA.runA events).started = (CmdQueueB.runB events).started ∧
    (CmdQueueA.runA events).settled = (CmdQueueB.runB events).settled ∧
    (∀ lane, CmdQueueA.getQueueSizeA (CmdQueueA.runA events) lane =
      CmdQueueB.getQueueSizeB (CmdQueueB.runB events) lane) ∧
    CmdQueueA.getTotalQueueSizeA (CmdQueueA.runA events) =
      CmdQueueB.getTotalQueueSizeB (CmdQueueB.runB events) := by
  obtain ⟨hlr, hnid, hstart, hsettle, hinv⟩ := runAB events
  exact ⟨hstart, hsettle, fun lane => getQueueSizeAB _ _ hlr lane,
    getTotalQueueSizeAB _ _ hlr⟩

end LlmRonBot
